import Mathlib

/-!
Shallow embedding of the Megadrive VDP core from `src/vdp.cpp` (md_vdp):
the two-word command protocol, the masked bank-write primitives with
multi-resolution dirty tracking, the data-port word/byte dispatch and the
DMA engine.  Memory banks are byte stores modelled as functions
`Nat → Nat`; machine integers are `Nat` with explicit `% 2^w` where the
C++ types truncate (`uint8_t`/`unsigned char` parameters as `% 256`,
`uint16_t`/`unsigned short` as `% 65536`, the 32-bit `rw_addr` as
`% 0x100000000`).
-/

/-- Pointwise update of a byte store. -/
def updateFn (f : Nat → Nat) (i v : Nat) : Nat → Nat :=
  fun j => if j = i then v else f j

/-- Size of the large (VRAM) bank: `vram = mem + 0x00000`, next view at `0x10000`. -/
def vramSize : Nat := 0x10000

/-- Size of the colour (CRAM) bank: `cram = mem + 0x10000`, next view at `0x10080`. -/
def cramSize : Nat := 0x80

/-- Size of the offset (VSRAM) bank: `vsram = mem + 0x10080`, next view at `0x10100`. -/
def vsramSize : Nat := 0x80

/-- Size of the register file: `memset(reg, 0, 0x20)`. -/
def regFileSize : Nat := 0x20

/-- Size of the dirty buffer: `memset(dirt, 0xff, 0x35)`. -/
def dirtSize : Nat := 0x35

/-- Dirty-byte index for a VRAM address (`byt = addr >> 8; byt >>= 3; byt &= 0x1f`). -/
def vramDirtByte (a : Nat) : Nat := ((a >>> 8) >>> 3) &&& 0x1f

/-- Dirty-bit index for a VRAM address (`bit = (addr >> 8) & 7`). -/
def vramDirtBit (a : Nat) : Nat := (a >>> 8) &&& 7

/-- Dirty-byte index for a CRAM address (`byt = addr; byt >>= 3; byt &= 0x0f`). -/
def cramDirtByte (a : Nat) : Nat := (a >>> 3) &&& 0x0f

/-- Dirty-bit index for a CRAM address (`bit = addr & 7`). -/
def cramDirtBit (a : Nat) : Nat := a &&& 7

/-- Dirty-byte index for a register index (`byt = addr; byt >>= 3; byt &= 0x03`). -/
def regDirtByte (a : Nat) : Nat := (a >>> 3) &&& 0x03

/-- Dirty-bit index for a register index (`bit = (byt & 7)` with `byt = addr`). -/
def regDirtBit (a : Nat) : Nat := a &&& 7

/-- The index used by `md_vdp::write_reg` to store into the register file:
the `uint8_t` parameter `addr` is used unmasked (`reg[addr] = data`). -/
def writeRegStoreIndex (addr : Nat) : Nat := addr % 256

/-- The VDP state visible to the claims: the three banks, the dirty buffer,
the register file, and the command/addressing state of `md_vdp`. -/
structure Vdp where
  vram : Nat → Nat
  cram : Nat → Nat
  vsram : Nat → Nat
  dirt : Nat → Nat
  reg : Nat → Nat
  rw_mode : Nat
  rw_addr : Nat
  rw_dma : Bool
  cmd_pending : Bool

/-- `md_vdp::poke_vram`: mask the address to 16 bits; if the stored byte
differs, set the 256-bytes-per-bit dirty bit, the VRAM summary flag
(`dirt[0x34] |= 1`) and store; otherwise do nothing. -/
def Vdp.poke_vram (s : Vdp) (addr d : Nat) : Vdp :=
  let a := addr % 65536
  let d := d % 256
  if s.vram a ≠ d then
    let d1 := updateFn s.dirt (0x00 + vramDirtByte a)
      (s.dirt (0x00 + vramDirtByte a) ||| (1 <<< vramDirtBit a))
    let d2 := updateFn d1 0x34 (d1 0x34 ||| 1)
    { s with vram := updateFn s.vram a d, dirt := d2 }
  else s

/-- `md_vdp::poke_cram`: mask the address to 7 bits; if the stored byte
differs, set the 1-byte-per-bit dirty bit at `dirt[0x20 + byt]`, the CRAM
summary flag (`dirt[0x34] |= 2`) and store; otherwise do nothing. -/
def Vdp.poke_cram (s : Vdp) (addr d : Nat) : Vdp :=
  let a := addr % 128
  let d := d % 256
  if s.cram a ≠ d then
    let d1 := updateFn s.dirt (0x20 + cramDirtByte a)
      (s.dirt (0x20 + cramDirtByte a) ||| (1 <<< cramDirtBit a))
    let d2 := updateFn d1 0x34 (d1 0x34 ||| 2)
    { s with cram := updateFn s.cram a d, dirt := d2 }
  else s

/-- `md_vdp::poke_vsram`: mask the address to 7 bits; if the stored byte
differs, set only the whole-bank summary flag (`dirt[0x34] |= 4`) and
store; otherwise do nothing. -/
def Vdp.poke_vsram (s : Vdp) (addr d : Nat) : Vdp :=
  let a := addr % 128
  let d := d % 256
  if s.vsram a ≠ d then
    { s with vsram := updateFn s.vsram a d,
             dirt := updateFn s.dirt 0x34 (s.dirt 0x34 ||| 4) }
  else s

/-- `md_vdp::dma_len`: `(reg[0x14] << 8) + reg[0x13]`. -/
def Vdp.dma_len (s : Vdp) : Nat := (s.reg 0x14 <<< 8) + s.reg 0x13

/-- `md_vdp::dma_addr`: `((reg[0x17] & 0x7f) << 17) + (reg[0x16] << 9) + (reg[0x15] << 1)`. -/
def Vdp.dma_addr (s : Vdp) : Nat :=
  ((s.reg 0x17 &&& 0x7f) <<< 17) + (s.reg 0x16 <<< 9) + (s.reg 0x15 <<< 1)

/-- `md_vdp::dma_mem_read` delegates to the external bus
(`belongs.misc_readbyte`), which returns an `unsigned char`. -/
def dma_mem_read (ext : Nat → Nat) (addr : Nat) : Nat := ext addr % 256

/-- `md_vdp::putword`: dispatch a word write on `rw_mode` (0x04 VRAM with
the odd-address byte swap, 0x0c CRAM, 0x14 VSRAM, anything else no
store), then `rw_addr += reg[15]` (32-bit wraparound). -/
def Vdp.putword (s : Vdp) (d : Nat) : Vdp :=
  let d := d % 65536
  let s1 :=
    if s.rw_mode = 0x04 then
      if s.rw_addr &&& 0x0001 = 1 then
        (s.poke_vram (s.rw_addr + 0) (d &&& 0xff)).poke_vram (s.rw_addr + 1) (d >>> 8)
      else
        (s.poke_vram (s.rw_addr + 0) (d >>> 8)).poke_vram (s.rw_addr + 1) (d &&& 0xff)
    else if s.rw_mode = 0x0c then
      (s.poke_cram (s.rw_addr + 0) (d >>> 8)).poke_cram (s.rw_addr + 1) (d &&& 0xff)
    else if s.rw_mode = 0x14 then
      (s.poke_vsram (s.rw_addr + 0) (d >>> 8)).poke_vsram (s.rw_addr + 1) (d &&& 0xff)
    else s
  { s1 with rw_addr := (s1.rw_addr + s1.reg 15) % 0x100000000 }

/-- `md_vdp::putbyte`: dispatch a byte write on `rw_mode`, then
`rw_addr += reg[15]` (32-bit wraparound). -/
def Vdp.putbyte (s : Vdp) (d : Nat) : Vdp :=
  let d := d % 256
  let s1 :=
    if s.rw_mode = 0x04 then s.poke_vram s.rw_addr d
    else if s.rw_mode = 0x0c then s.poke_cram s.rw_addr d
    else if s.rw_mode = 0x14 then s.poke_vsram s.rw_addr d
    else s
  { s1 with rw_addr := (s1.rw_addr + s1.reg 15) % 0x100000000 }

/-- `md_vdp::readword`: big-endian word read selected by the read modes
(0x00 VRAM, 0x20 CRAM, 0x10 VSRAM), then auto-increment. -/
def Vdp.readword (s : Vdp) : Nat × Vdp :=
  let result :=
    if s.rw_mode = 0x00 then
      (s.vram ((s.rw_addr + 0) % 65536) <<< 8) + s.vram ((s.rw_addr + 1) % 65536)
    else if s.rw_mode = 0x20 then
      (s.cram ((s.rw_addr + 0) % 128) <<< 8) + s.cram ((s.rw_addr + 1) % 128)
    else if s.rw_mode = 0x10 then
      (s.vsram ((s.rw_addr + 0) % 128) <<< 8) + s.vsram ((s.rw_addr + 1) % 128)
    else 0
  (result, { s with rw_addr := (s.rw_addr + s.reg 15) % 0x100000000 })

/-- `md_vdp::readbyte`: byte read selected by the read modes
(0x00 VRAM, 0x20 CRAM, 0x10 VSRAM), then auto-increment. -/
def Vdp.readbyte (s : Vdp) : Nat × Vdp :=
  let result :=
    if s.rw_mode = 0x00 then s.vram ((s.rw_addr + 0) % 65536)
    else if s.rw_mode = 0x20 then s.cram ((s.rw_addr + 0) % 128)
    else if s.rw_mode = 0x10 then s.vsram ((s.rw_addr + 0) % 128)
    else 0
  (result, { s with rw_addr := (s.rw_addr + s.reg 15) % 0x100000000 })

/-- The DMA loop of `md_vdp::command` for modes 0 and 1: read two
consecutive bytes from the external source, combine big-endian, and write
through `putword`; the source advances by 2 per iteration. -/
def dmaLoop01 (ext : Nat → Nat) : Nat → Nat → Vdp → Vdp
  | 0, _, t => t
  | n + 1, src, t =>
      dmaLoop01 ext n (src + 2)
        (t.putword ((dma_mem_read ext src <<< 8) ||| dma_mem_read ext (src + 1)))

/-- The DMA loop of `md_vdp::command` for mode 3: like modes 0/1 but the
two source bytes come from VRAM itself (`vram[(s++) & 0xffff]`). -/
def dmaLoop3 : Nat → Nat → Vdp → Vdp
  | 0, _, t => t
  | n + 1, src, t =>
      dmaLoop3 n (src + 2)
        (t.putword ((t.vram (src % 65536) <<< 8) ||| t.vram ((src + 1) % 65536)))

/-- The fill loop of `md_vdp::writeword`: `for (i = 0; i < len; i++) putword(d)`. -/
def fillLoopW (d : Nat) : Nat → Vdp → Vdp
  | 0, t => t
  | n + 1, t => fillLoopW d n (t.putword d)

/-- The fill loop of `md_vdp::writebyte`: `for (i = 0; i < len; i++) putbyte(d)`. -/
def fillLoopB (d : Nat) : Nat → Vdp → Vdp
  | 0, t => t
  | n + 1, t => fillLoopB d n (t.putbyte d)

/-- `md_vdp::command`: the two-word control-port protocol.  The first word
commits the low 14 address bits and replaces `rw_mode`; the second word
commits address bits 14-15, OR-merges `cmd & 0x70` into `rw_mode`, sets
`rw_dma` from bit 7 and, if set, runs the DMA transfer immediately
(mode 2, fill, is deferred).  `rw_addr` is mirrored into its own high 16
bits after each commit, exactly as the source does. -/
def Vdp.command (s : Vdp) (ext : Nat → Nat) (cmd : Nat) : Vdp :=
  let cmd := cmd % 65536
  if s.cmd_pending then
    let a1 := (s.rw_addr &&& 0xffff3fff) ||| ((cmd &&& 0x0003) <<< 14)
    let a2 := (a1 &&& 0x0000ffff) ||| ((a1 <<< 16) % 0x100000000)
    let s := { s with rw_addr := a2,
                      rw_mode := s.rw_mode ||| (cmd &&& 0x0070),
                      rw_dma := (cmd &&& 0x80) == 0x80,
                      cmd_pending := false }
    if s.rw_dma then
      let mode := (s.reg 0x17 >>> 6) &&& 3
      if mode = 0 ∨ mode = 1 then dmaLoop01 ext s.dma_len s.dma_addr s
      else if mode = 3 then dmaLoop3 s.dma_len s.dma_addr s
      else s
    else s
  else
    let a1 := (s.rw_addr &&& 0xffffc000) ||| (cmd &&& 0x3fff)
    let a2 := (a1 &&& 0x0000ffff) ||| ((a1 <<< 16) % 0x100000000)
    { s with rw_addr := a2,
             rw_mode := (cmd &&& 0xc000) >>> 12,
             rw_dma := false,
             cmd_pending := true }

/-- `md_vdp::writeword`: if `rw_dma` is set and the transfer mode field
(`(reg[0x17] >> 6) & 3`) is 2, run the deferred fill; if `rw_dma` is set
with any other mode, do nothing; otherwise a single `putword`. -/
def Vdp.writeword (s : Vdp) (d : Nat) : Vdp :=
  let d := d % 65536
  if s.rw_dma then
    if (s.reg 0x17 >>> 6) &&& 3 = 2 then fillLoopW d s.dma_len s
    else s
  else s.putword d

/-- `md_vdp::writebyte`: byte analogue of `writeword`. -/
def Vdp.writebyte (s : Vdp) (d : Nat) : Vdp :=
  let d := d % 256
  if s.rw_dma then
    if (s.reg 0x17 >>> 6) &&& 3 = 2 then fillLoopB d s.dma_len s
    else s
  else s.putbyte d

/-- `md_vdp::write_reg`: set the 1-byte-granularity register dirty bit and
the register summary flag (`dirt[0x34] |= 8`) only when the value changes,
store unconditionally (at the unmasked 8-bit index), and always clear
`rw_mode` ("Writing to a VDP register will clear the code register."). -/
def Vdp.write_reg (s : Vdp) (addr data : Nat) : Vdp :=
  let a := writeRegStoreIndex addr
  let d := data % 256
  let s1 :=
    if s.reg a ≠ d then
      let d1 := updateFn s.dirt (0x30 + regDirtByte a)
        (s.dirt (0x30 + regDirtByte a) ||| (1 <<< regDirtBit a))
      let d2 := updateFn d1 0x34 (d1 0x34 ||| 8)
      { s with dirt := d2 }
    else s
  { s1 with reg := updateFn s1.reg a d, rw_mode := 0 }

/-- The guard under which `writeword`/`writebyte` run the deferred DMA
fill: `rw_dma` set and transfer-mode field 2. -/
def Vdp.fillArmed (s : Vdp) : Prop :=
  s.rw_dma = true ∧ (s.reg 0x17 >>> 6) &&& 3 = 2

instance (s : Vdp) : Decidable s.fillArmed := by
  unfold Vdp.fillArmed; infer_instance

/-! ### Bit-arithmetic toolkit -/

theorem land_one (x : Nat) : x &&& 1 = x % 2 := by
  norm_num

theorem land_three (x : Nat) : x &&& 3 = x % 4 := by
  have h := Nat.and_pow_two_sub_one_eq_mod x 2; norm_num at h; exact h

theorem land_seven (x : Nat) : x &&& 7 = x % 8 := by
  have h := Nat.and_pow_two_sub_one_eq_mod x 3; norm_num at h; exact h

theorem land_f (x : Nat) : x &&& 0xf = x % 16 := by
  have h := Nat.and_pow_two_sub_one_eq_mod x 4; norm_num at h; exact h

theorem land_1f (x : Nat) : x &&& 0x1f = x % 32 := by
  have h := Nat.and_pow_two_sub_one_eq_mod x 5; norm_num at h; exact h

theorem land_7f (x : Nat) : x &&& 0x7f = x % 128 := by
  have h := Nat.and_pow_two_sub_one_eq_mod x 7; norm_num at h; exact h

theorem land_ff (x : Nat) : x &&& 0xff = x % 256 := by
  have h := Nat.and_pow_two_sub_one_eq_mod x 8; norm_num at h; exact h

theorem land_3fff (x : Nat) : x &&& 0x3fff = x % 16384 := by
  have h := Nat.and_pow_two_sub_one_eq_mod x 14; norm_num at h; exact h

theorem land_ffff (x : Nat) : x &&& 0xffff = x % 65536 := by
  have h := Nat.and_pow_two_sub_one_eq_mod x 16; norm_num at h; exact h

theorem shl_eq_mul (x n : Nat) : x <<< n = x * 2 ^ n := Nat.shiftLeft_eq x n

theorem shr_eq_div (x n : Nat) : x >>> n = x / 2 ^ n := Nat.shiftRight_eq_div_pow x n

theorem word_or_eq (b0 b1 : Nat) (h : b1 < 256) : (b0 <<< 8) ||| b1 = b0 * 256 + b1 := by
  have h2 : (2 : Nat) ^ 8 * b0 + b1 = 2 ^ 8 * b0 ||| b1 :=
    Nat.mul_add_lt_is_or (by norm_num [h]) b0
  calc (b0 <<< 8) ||| b1 = 2 ^ 8 * b0 ||| b1 := by rw [shl_eq_mul, Nat.mul_comm]
    _ = 2 ^ 8 * b0 + b1 := h2.symm
    _ = b0 * 256 + b1 := by ring

/-- The post-commit mirroring `rw_addr = (rw_addr & 0x0000ffff) | (rw_addr << 16)`
(32-bit) duplicates the low 16 bits into the high 16 bits. -/
theorem mirror_eq (x : Nat) :
    (x &&& 0xffff) ||| ((x <<< 16) % 0x100000000) = 65537 * (x % 65536) := by
  have h1 : (x <<< 16) % 0x100000000 = 2 ^ 16 * (x % 65536) := by
    rw [shl_eq_mul]; norm_num; omega
  have h2 : (2 : Nat) ^ 16 * (x % 65536) + x % 65536 = 2 ^ 16 * (x % 65536) ||| x % 65536 :=
    Nat.mul_add_lt_is_or (Nat.mod_lt _ (by norm_num)) _
  rw [land_ffff, h1, Nat.lor_comm, ← h2]; ring

theorem testBit_mask_ffff3fff (i : Nat) :
    Nat.testBit 0xffff3fff i = (decide (i < 14) || (decide (16 ≤ i) && decide (i < 32))) := by
  rw [show (0xffff3fff : Nat) = 2 ^ 16 * 0xffff + 0x3fff by norm_num]
  rw [Nat.testBit_mul_pow_two_add _ (by norm_num)]
  by_cases h : i < 16
  · rw [if_pos h, show (0x3fff : Nat) = 2 ^ 14 - 1 by norm_num, Nat.testBit_two_pow_sub_one,
      decide_eq_false (by omega : ¬ 16 ≤ i)]
    simp
  · rw [if_neg h, show (0xffff : Nat) = 2 ^ 16 - 1 by norm_num, Nat.testBit_two_pow_sub_one,
      decide_eq_false (by omega : ¬ i < 14), decide_eq_true (by omega : 16 ≤ i)]
    simp only [Bool.false_or, Bool.true_and, decide_eq_decide]
    omega

theorem testBit_mask_ffffc000 (i : Nat) :
    Nat.testBit 0xffffc000 i = (decide (14 ≤ i) && decide (i < 32)) := by
  rw [show (0xffffc000 : Nat) = 2 ^ 14 * 0x3ffff + 0 by norm_num]
  rw [Nat.testBit_mul_pow_two_add _ (by norm_num)]
  by_cases h : i < 14
  · rw [if_pos h, decide_eq_false (by omega : ¬ 14 ≤ i)]
    simp
  · rw [if_neg h, show (0x3ffff : Nat) = 2 ^ 18 - 1 by norm_num, Nat.testBit_two_pow_sub_one,
      decide_eq_true (by omega : 14 ≤ i)]
    simp only [Bool.true_and, decide_eq_decide]
    omega

/-- Arithmetic form of the first command word's address commit
`(rw_addr & 0xffffc000) | (cmd & 0x3fff)`. -/
theorem latch1_arith (m w : Nat) :
    (m &&& 0xffffc000) ||| (w &&& 0x3fff)
      = w % 16384 + 16384 * (m / 16384 % 262144) := by
  have hmask : m &&& 0xffffc000 = 2 ^ 14 * (m / 2 ^ 14 % 2 ^ 18) := by
    apply Nat.eq_of_testBit_eq
    intro i
    rw [Nat.testBit_land, testBit_mask_ffffc000, Nat.testBit_mul_pow_two,
      Nat.testBit_mod_two_pow, ← Nat.shiftRight_eq_div_pow, Nat.testBit_shiftRight]
    by_cases h : 14 ≤ i
    · rw [decide_eq_true h, show 14 + (i - 14) = i by omega,
        show (decide (i - 14 < 18)) = (decide (i < 32)) by
          simp only [decide_eq_decide]; omega]
      cases m.testBit i <;> simp
    · rw [decide_eq_false h]
      simp
  rw [hmask, land_3fff]
  rw [← Nat.mul_add_lt_is_or (by omega : w % 16384 < 2 ^ 14) _]
  norm_num [Nat.add_comm]

/-- Arithmetic form of the second command word's address commit
`(rw_addr & 0xffff3fff) | ((cmd & 0x0003) << 14)`. -/
theorem latch2_arith (m w : Nat) :
    (m &&& 0xffff3fff) ||| ((w &&& 0x0003) <<< 14)
      = m % 16384 + 16384 * (w % 4) + 65536 * (m / 65536 % 65536) := by
  apply Nat.eq_of_testBit_eq
  intro i
  rw [Nat.testBit_lor, Nat.testBit_land, testBit_mask_ffff3fff, Nat.testBit_shiftLeft,
    land_three]
  rw [show m % 16384 + 16384 * (w % 4) + 65536 * (m / 65536 % 65536)
      = 2 ^ 16 * (m / 65536 % 65536) + (2 ^ 14 * (w % 4) + m % 16384) by ring]
  rw [Nat.testBit_mul_pow_two_add _ (by omega : 2 ^ 14 * (w % 4) + m % 16384 < 2 ^ 16)]
  by_cases h16 : i < 16
  · rw [if_pos h16, Nat.testBit_mul_pow_two_add _ (by omega : m % 16384 < 2 ^ 14)]
    by_cases h14 : i < 14
    · rw [if_pos h14, decide_eq_true h14,
        show (16384 : Nat) = 2 ^ 14 by norm_num, Nat.testBit_mod_two_pow,
        decide_eq_true (by omega : i < 14), decide_eq_false (by omega : ¬ i ≥ 14)]
      simp
    · rw [if_neg h14, decide_eq_false h14, decide_eq_false (by omega : ¬ 16 ≤ i),
        decide_eq_true (by omega : i ≥ 14),
        show (4 : Nat) = 2 ^ 2 by norm_num, Nat.testBit_mod_two_pow,
        decide_eq_true (by omega : i - 14 < 2)]
      simp
  · rw [if_neg h16, decide_eq_false (by omega : ¬ i < 14),
      decide_eq_true (by omega : 16 ≤ i), decide_eq_true (by omega : i ≥ 14),
      show (65536 : Nat) = 2 ^ 16 by norm_num, Nat.testBit_mod_two_pow, ←
      Nat.shiftRight_eq_div_pow, Nat.testBit_shiftRight,
      show 16 + (i - 16) = i by omega,
      show Nat.testBit (w % 4) (i - 14) = false from
        Nat.testBit_lt_two_pow (by
          calc w % 4 < 2 ^ 2 := by omega
            _ ≤ 2 ^ (i - 14) := Nat.pow_le_pow_right (by norm_num) (by omega))]
    by_cases h32 : i < 32
    · rw [decide_eq_true h32, decide_eq_true (by omega : i - 16 < 16)]
      simp
    · rw [decide_eq_false h32, decide_eq_false (by omega : ¬ i - 16 < 16)]
      simp

/-! ### Projection lemmas for the write primitives -/

@[simp] theorem Vdp.poke_vram_cram (s : Vdp) (a d : Nat) : (s.poke_vram a d).cram = s.cram := by
  unfold Vdp.poke_vram; dsimp only; split <;> rfl

@[simp] theorem Vdp.poke_vram_vsram (s : Vdp) (a d : Nat) : (s.poke_vram a d).vsram = s.vsram := by
  unfold Vdp.poke_vram; dsimp only; split <;> rfl

@[simp] theorem Vdp.poke_vram_reg (s : Vdp) (a d : Nat) : (s.poke_vram a d).reg = s.reg := by
  unfold Vdp.poke_vram; dsimp only; split <;> rfl

@[simp] theorem Vdp.poke_vram_rw_mode (s : Vdp) (a d : Nat) :
    (s.poke_vram a d).rw_mode = s.rw_mode := by
  unfold Vdp.poke_vram; dsimp only; split <;> rfl

@[simp] theorem Vdp.poke_vram_rw_addr (s : Vdp) (a d : Nat) :
    (s.poke_vram a d).rw_addr = s.rw_addr := by
  unfold Vdp.poke_vram; dsimp only; split <;> rfl

@[simp] theorem Vdp.poke_vram_rw_dma (s : Vdp) (a d : Nat) :
    (s.poke_vram a d).rw_dma = s.rw_dma := by
  unfold Vdp.poke_vram; dsimp only; split <;> rfl

@[simp] theorem Vdp.poke_vram_cmd_pending (s : Vdp) (a d : Nat) :
    (s.poke_vram a d).cmd_pending = s.cmd_pending := by
  unfold Vdp.poke_vram; dsimp only; split <;> rfl

theorem Vdp.poke_vram_vram (s : Vdp) (a d x : Nat) :
    (s.poke_vram a d).vram x = if x = a % 65536 then d % 256 else s.vram x := by
  unfold Vdp.poke_vram
  by_cases h : s.vram (a % 65536) = d % 256
  · rw [if_neg (by simpa using h)]
    split
    · next hx => rw [hx]; exact h
    · rfl
  · rw [if_pos h]
    simp [updateFn]

@[simp] theorem Vdp.poke_cram_vram (s : Vdp) (a d : Nat) : (s.poke_cram a d).vram = s.vram := by
  unfold Vdp.poke_cram; dsimp only; split <;> rfl

@[simp] theorem Vdp.poke_cram_vsram (s : Vdp) (a d : Nat) : (s.poke_cram a d).vsram = s.vsram := by
  unfold Vdp.poke_cram; dsimp only; split <;> rfl

@[simp] theorem Vdp.poke_cram_reg (s : Vdp) (a d : Nat) : (s.poke_cram a d).reg = s.reg := by
  unfold Vdp.poke_cram; dsimp only; split <;> rfl

@[simp] theorem Vdp.poke_cram_rw_mode (s : Vdp) (a d : Nat) :
    (s.poke_cram a d).rw_mode = s.rw_mode := by
  unfold Vdp.poke_cram; dsimp only; split <;> rfl

@[simp] theorem Vdp.poke_cram_rw_addr (s : Vdp) (a d : Nat) :
    (s.poke_cram a d).rw_addr = s.rw_addr := by
  unfold Vdp.poke_cram; dsimp only; split <;> rfl

@[simp] theorem Vdp.poke_cram_rw_dma (s : Vdp) (a d : Nat) :
    (s.poke_cram a d).rw_dma = s.rw_dma := by
  unfold Vdp.poke_cram; dsimp only; split <;> rfl

@[simp] theorem Vdp.poke_cram_cmd_pending (s : Vdp) (a d : Nat) :
    (s.poke_cram a d).cmd_pending = s.cmd_pending := by
  unfold Vdp.poke_cram; dsimp only; split <;> rfl

theorem Vdp.poke_cram_cram (s : Vdp) (a d x : Nat) :
    (s.poke_cram a d).cram x = if x = a % 128 then d % 256 else s.cram x := by
  unfold Vdp.poke_cram
  by_cases h : s.cram (a % 128) = d % 256
  · rw [if_neg (by simpa using h)]
    split
    · next hx => rw [hx]; exact h
    · rfl
  · rw [if_pos h]
    simp [updateFn]

@[simp] theorem Vdp.poke_vsram_vram (s : Vdp) (a d : Nat) : (s.poke_vsram a d).vram = s.vram := by
  unfold Vdp.poke_vsram; dsimp only; split <;> rfl

@[simp] theorem Vdp.poke_vsram_cram (s : Vdp) (a d : Nat) : (s.poke_vsram a d).cram = s.cram := by
  unfold Vdp.poke_vsram; dsimp only; split <;> rfl

@[simp] theorem Vdp.poke_vsram_reg (s : Vdp) (a d : Nat) : (s.poke_vsram a d).reg = s.reg := by
  unfold Vdp.poke_vsram; dsimp only; split <;> rfl

@[simp] theorem Vdp.poke_vsram_rw_mode (s : Vdp) (a d : Nat) :
    (s.poke_vsram a d).rw_mode = s.rw_mode := by
  unfold Vdp.poke_vsram; dsimp only; split <;> rfl

@[simp] theorem Vdp.poke_vsram_rw_addr (s : Vdp) (a d : Nat) :
    (s.poke_vsram a d).rw_addr = s.rw_addr := by
  unfold Vdp.poke_vsram; dsimp only; split <;> rfl

@[simp] theorem Vdp.poke_vsram_rw_dma (s : Vdp) (a d : Nat) :
    (s.poke_vsram a d).rw_dma = s.rw_dma := by
  unfold Vdp.poke_vsram; dsimp only; split <;> rfl

@[simp] theorem Vdp.poke_vsram_cmd_pending (s : Vdp) (a d : Nat) :
    (s.poke_vsram a d).cmd_pending = s.cmd_pending := by
  unfold Vdp.poke_vsram; dsimp only; split <;> rfl

theorem Vdp.poke_vsram_vsram (s : Vdp) (a d x : Nat) :
    (s.poke_vsram a d).vsram x = if x = a % 128 then d % 256 else s.vsram x := by
  unfold Vdp.poke_vsram
  by_cases h : s.vsram (a % 128) = d % 256
  · rw [if_neg (by simpa using h)]
    split
    · next hx => rw [hx]; exact h
    · rfl
  · rw [if_pos h]
    simp [updateFn]

@[simp] theorem Vdp.putword_reg (s : Vdp) (d : Nat) : (s.putword d).reg = s.reg := by
  unfold Vdp.putword; dsimp only; split_ifs <;> simp

@[simp] theorem Vdp.putword_rw_mode (s : Vdp) (d : Nat) :
    (s.putword d).rw_mode = s.rw_mode := by
  unfold Vdp.putword; dsimp only; split_ifs <;> simp

@[simp] theorem Vdp.putword_rw_dma (s : Vdp) (d : Nat) : (s.putword d).rw_dma = s.rw_dma := by
  unfold Vdp.putword; dsimp only; split_ifs <;> simp

@[simp] theorem Vdp.putword_cmd_pending (s : Vdp) (d : Nat) :
    (s.putword d).cmd_pending = s.cmd_pending := by
  unfold Vdp.putword; dsimp only; split_ifs <;> simp

@[simp] theorem Vdp.putword_rw_addr (s : Vdp) (d : Nat) :
    (s.putword d).rw_addr = (s.rw_addr + s.reg 15) % 0x100000000 := by
  unfold Vdp.putword; dsimp only; split_ifs <;> simp

theorem Vdp.putword_vram_of_ne (s : Vdp) (d : Nat) (h : s.rw_mode ≠ 0x04) :
    (s.putword d).vram = s.vram := by
  unfold Vdp.putword; dsimp only; split_ifs <;> simp_all

theorem Vdp.putword_cram_of_ne (s : Vdp) (d : Nat) (h : s.rw_mode ≠ 0x0c) :
    (s.putword d).cram = s.cram := by
  unfold Vdp.putword; dsimp only; split_ifs <;> simp_all

theorem Vdp.putword_vsram_of_ne (s : Vdp) (d : Nat) (h : s.rw_mode ≠ 0x14) :
    (s.putword d).vsram = s.vsram := by
  unfold Vdp.putword; dsimp only; split_ifs <;> simp_all

theorem Vdp.putword_dirt_of_none (s : Vdp) (d : Nat) (h4 : s.rw_mode ≠ 0x04)
    (hc : s.rw_mode ≠ 0x0c) (hv : s.rw_mode ≠ 0x14) :
    (s.putword d).dirt = s.dirt := by
  unfold Vdp.putword; dsimp only; split_ifs <;> simp_all

theorem Vdp.putword_vram_even (s : Vdp) (d x : Nat) (hm : s.rw_mode = 0x04)
    (he : s.rw_addr % 2 = 0) :
    (s.putword d).vram x =
      if x = (s.rw_addr + 1) % 65536 then d % 65536 % 256
      else if x = s.rw_addr % 65536 then d % 65536 / 256
      else s.vram x := by
  unfold Vdp.putword; dsimp only
  rw [if_pos hm, if_neg (by rw [land_one]; omega)]
  simp only [Vdp.poke_vram_vram, Vdp.poke_vram_rw_addr, land_ff, shr_eq_div]
  have h1 : d % 65536 % 256 % 256 = d % 65536 % 256 := by omega
  have h2 : d % 65536 / 2 ^ 8 % 256 = d % 65536 / 256 := by
    norm_num
    omega
  simp only [Nat.add_zero, h1, h2]

theorem Vdp.putword_vram_odd (s : Vdp) (d x : Nat) (hm : s.rw_mode = 0x04)
    (ho : s.rw_addr % 2 = 1) :
    (s.putword d).vram x =
      if x = (s.rw_addr + 1) % 65536 then d % 65536 / 256
      else if x = s.rw_addr % 65536 then d % 65536 % 256
      else s.vram x := by
  unfold Vdp.putword; dsimp only
  rw [if_pos hm, if_pos (by rw [land_one]; omega)]
  simp only [Vdp.poke_vram_vram, Vdp.poke_vram_rw_addr, land_ff, shr_eq_div]
  have h1 : d % 65536 % 256 % 256 = d % 65536 % 256 := by omega
  have h2 : d % 65536 / 2 ^ 8 % 256 = d % 65536 / 256 := by
    norm_num
    omega
  simp only [Nat.add_zero, h1, h2]

theorem Vdp.putword_cram_eq (s : Vdp) (d x : Nat) (hm : s.rw_mode = 0x0c) :
    (s.putword d).cram x =
      if x = (s.rw_addr + 1) % 128 then d % 65536 % 256
      else if x = s.rw_addr % 128 then d % 65536 / 256
      else s.cram x := by
  unfold Vdp.putword; dsimp only
  rw [if_neg (by omega), if_pos hm]
  simp only [Vdp.poke_cram_cram, Vdp.poke_cram_rw_addr, land_ff, shr_eq_div]
  have h1 : d % 65536 % 256 % 256 = d % 65536 % 256 := by omega
  have h2 : d % 65536 / 2 ^ 8 % 256 = d % 65536 / 256 := by
    norm_num
    omega
  simp only [Nat.add_zero, h1, h2]

theorem Vdp.putword_vsram_eq (s : Vdp) (d x : Nat) (hm : s.rw_mode = 0x14) :
    (s.putword d).vsram x =
      if x = (s.rw_addr + 1) % 128 then d % 65536 % 256
      else if x = s.rw_addr % 128 then d % 65536 / 256
      else s.vsram x := by
  unfold Vdp.putword; dsimp only
  rw [if_neg (by omega), if_neg (by omega), if_pos hm]
  simp only [Vdp.poke_vsram_vsram, Vdp.poke_vsram_rw_addr, land_ff, shr_eq_div]
  have h1 : d % 65536 % 256 % 256 = d % 65536 % 256 := by omega
  have h2 : d % 65536 / 2 ^ 8 % 256 = d % 65536 / 256 := by
    norm_num
    omega
  simp only [Nat.add_zero, h1, h2]

@[simp] theorem Vdp.putbyte_reg (s : Vdp) (d : Nat) : (s.putbyte d).reg = s.reg := by
  unfold Vdp.putbyte; dsimp only; split_ifs <;> simp

@[simp] theorem Vdp.putbyte_rw_mode (s : Vdp) (d : Nat) :
    (s.putbyte d).rw_mode = s.rw_mode := by
  unfold Vdp.putbyte; dsimp only; split_ifs <;> simp

@[simp] theorem Vdp.putbyte_rw_dma (s : Vdp) (d : Nat) : (s.putbyte d).rw_dma = s.rw_dma := by
  unfold Vdp.putbyte; dsimp only; split_ifs <;> simp

@[simp] theorem Vdp.putbyte_cmd_pending (s : Vdp) (d : Nat) :
    (s.putbyte d).cmd_pending = s.cmd_pending := by
  unfold Vdp.putbyte; dsimp only; split_ifs <;> simp

@[simp] theorem Vdp.putbyte_rw_addr (s : Vdp) (d : Nat) :
    (s.putbyte d).rw_addr = (s.rw_addr + s.reg 15) % 0x100000000 := by
  unfold Vdp.putbyte; dsimp only; split_ifs <;> simp

theorem Vdp.putbyte_vram_of_ne (s : Vdp) (d : Nat) (h : s.rw_mode ≠ 0x04) :
    (s.putbyte d).vram = s.vram := by
  unfold Vdp.putbyte; dsimp only; split_ifs <;> simp_all

theorem Vdp.putbyte_cram_of_ne (s : Vdp) (d : Nat) (h : s.rw_mode ≠ 0x0c) :
    (s.putbyte d).cram = s.cram := by
  unfold Vdp.putbyte; dsimp only; split_ifs <;> simp_all

theorem Vdp.putbyte_vsram_of_ne (s : Vdp) (d : Nat) (h : s.rw_mode ≠ 0x14) :
    (s.putbyte d).vsram = s.vsram := by
  unfold Vdp.putbyte; dsimp only; split_ifs <;> simp_all

theorem Vdp.putbyte_dirt_of_none (s : Vdp) (d : Nat) (h4 : s.rw_mode ≠ 0x04)
    (hc : s.rw_mode ≠ 0x0c) (hv : s.rw_mode ≠ 0x14) :
    (s.putbyte d).dirt = s.dirt := by
  unfold Vdp.putbyte; dsimp only; split_ifs <;> simp_all

theorem testBit_or_pow (x b j : Nat) :
    Nat.testBit (x ||| (1 <<< b)) j = (Nat.testBit x j || decide (b = j)) := by
  rw [Nat.testBit_lor, shl_eq_mul, Nat.one_mul, Nat.testBit_two_pow]

theorem vramDirtByte_lt (a : Nat) : vramDirtByte a < 32 := by
  have := Nat.and_le_right (n := (a >>> 8) >>> 3) (m := 0x1f)
  unfold vramDirtByte; omega

theorem cramDirtByte_lt (a : Nat) : cramDirtByte a < 16 := by
  have := Nat.and_le_right (n := a >>> 3) (m := 0x0f)
  unfold cramDirtByte; omega

theorem regDirtByte_lt (a : Nat) : regDirtByte a < 4 := by
  have := Nat.and_le_right (n := a >>> 3) (m := 0x03)
  unfold regDirtByte; omega

/-- Bit content of the two-level dirty update performed by the poke
primitives: one granular bit at byte `i0`, plus one summary bit at byte
`0x34`. -/
theorem dirt_two_bit_update (f : Nat → Nat) (i0 b0 sb sv i j : Nat) (h : i0 ≠ 0x34)
    (hsv : sv = 1 <<< sb) :
    Nat.testBit (updateFn (updateFn f i0 (f i0 ||| (1 <<< b0))) 0x34
      ((updateFn f i0 (f i0 ||| (1 <<< b0))) 0x34 ||| sv) i) j = true ↔
      (Nat.testBit (f i) j = true ∨ (i = i0 ∧ j = b0) ∨ (i = 0x34 ∧ j = sb)) := by
  subst hsv
  unfold updateFn
  by_cases hi : i = 52
  · subst hi
    rw [if_pos rfl, if_neg (by omega)]
    rw [testBit_or_pow]
    simp only [Bool.or_eq_true, decide_eq_true_eq]
    constructor
    · rintro (hp | hp)
      · exact Or.inl hp
      · exact Or.inr (Or.inr ⟨by trivial, hp.symm⟩)
    · rintro (hp | ⟨h1, _⟩ | ⟨_, h2⟩)
      · exact Or.inl hp
      · exact absurd h1.symm h
      · exact Or.inr h2.symm
  · rw [if_neg hi]
    by_cases hi0 : i = i0
    · subst hi0
      rw [if_pos rfl, testBit_or_pow]
      simp only [Bool.or_eq_true, decide_eq_true_eq]
      constructor
      · rintro (hp | hp)
        · exact Or.inl hp
        · exact Or.inr (Or.inl ⟨by trivial, hp.symm⟩)
      · rintro (hp | ⟨_, h2⟩ | ⟨h1, _⟩)
        · exact Or.inl hp
        · exact Or.inr h2.symm
        · exact absurd h1 hi
    · rw [if_neg hi0]
      constructor
      · exact Or.inl
      · rintro (hp | ⟨h1, _⟩ | ⟨h1, _⟩)
        · exact hp
        · exact absurd h1 hi0
        · exact absurd h1 hi

/-- Bit content of the one-level dirty update performed by `poke_vsram`:
only the summary bit at byte `0x34`. -/
theorem dirt_one_bit_update (f : Nat → Nat) (sb sv i j : Nat) (hsv : sv = 1 <<< sb) :
    Nat.testBit (updateFn f 0x34 (f 0x34 ||| sv) i) j = true ↔
      (Nat.testBit (f i) j = true ∨ (i = 0x34 ∧ j = sb)) := by
  subst hsv
  unfold updateFn
  by_cases hi : i = 52
  · subst hi
    rw [if_pos rfl, testBit_or_pow]
    simp only [Bool.or_eq_true, decide_eq_true_eq]
    constructor
    · rintro (hp | hp)
      · exact Or.inl hp
      · exact Or.inr ⟨by trivial, hp.symm⟩
    · rintro (hp | ⟨_, h2⟩)
      · exact Or.inl hp
      · exact Or.inr h2.symm
  · rw [if_neg hi]
    constructor
    · exact Or.inl
    · rintro (hp | ⟨h1, _⟩)
      · exact hp
      · exact absurd h1 hi

/-- C2: for every bank (large/color/offset), every address and every byte
value `v`: a masked write of an unchanged value changes nothing (no store,
no dirty bit, no summary flag); a write of a differing value stores the
byte and sets exactly the dirty bit covering the address at the bank's
granularity (256 bytes/bit for VRAM, 1 byte/bit for CRAM, whole-bank flag
for VSRAM) plus the bank's summary flag in `dirt[0x34]`. -/
theorem poke_dirty_tracking (s : Vdp) (a v : Nat) (hv : v < 256) :
    (s.vram (a % 65536) = v → s.poke_vram a v = s) ∧
    (s.vram (a % 65536) ≠ v →
      (∀ x, (s.poke_vram a v).vram x = if x = a % 65536 then v else s.vram x) ∧
      (∀ i j, Nat.testBit ((s.poke_vram a v).dirt i) j = true ↔
        (Nat.testBit (s.dirt i) j = true ∨
          (i = vramDirtByte (a % 65536) ∧ j = vramDirtBit (a % 65536)) ∨
          (i = 0x34 ∧ j = 0)))) ∧
    (s.cram (a % 128) = v → s.poke_cram a v = s) ∧
    (s.cram (a % 128) ≠ v →
      (∀ x, (s.poke_cram a v).cram x = if x = a % 128 then v else s.cram x) ∧
      (∀ i j, Nat.testBit ((s.poke_cram a v).dirt i) j = true ↔
        (Nat.testBit (s.dirt i) j = true ∨
          (i = 0x20 + cramDirtByte (a % 128) ∧ j = cramDirtBit (a % 128)) ∨
          (i = 0x34 ∧ j = 1)))) ∧
    (s.vsram (a % 128) = v → s.poke_vsram a v = s) ∧
    (s.vsram (a % 128) ≠ v →
      (∀ x, (s.poke_vsram a v).vsram x = if x = a % 128 then v else s.vsram x) ∧
      (∀ i j, Nat.testBit ((s.poke_vsram a v).dirt i) j = true ↔
        (Nat.testBit (s.dirt i) j = true ∨ (i = 0x34 ∧ j = 2)))) := by
  refine ⟨?_, ?_, ?_, ?_, ?_, ?_⟩
  · intro h
    unfold Vdp.poke_vram; dsimp only
    rw [Nat.mod_eq_of_lt hv, if_neg (not_not_intro h)]
  · intro h
    refine ⟨fun x => ?_, fun i j => ?_⟩
    · rw [Vdp.poke_vram_vram, Nat.mod_eq_of_lt hv]
    · unfold Vdp.poke_vram; dsimp only
      rw [Nat.mod_eq_of_lt hv, if_pos h]
      dsimp only
      have hB := vramDirtByte_lt (a % 65536)
      have H := dirt_two_bit_update s.dirt (0x00 + vramDirtByte (a % 65536))
        (vramDirtBit (a % 65536)) 0 1 i j (by omega) (by rfl)
      rw [H]
      constructor
      · rintro (hp | ⟨h1, h2⟩ | hp)
        · exact Or.inl hp
        · exact Or.inr (Or.inl ⟨by omega, h2⟩)
        · exact Or.inr (Or.inr hp)
      · rintro (hp | ⟨h1, h2⟩ | hp)
        · exact Or.inl hp
        · exact Or.inr (Or.inl ⟨by omega, h2⟩)
        · exact Or.inr (Or.inr hp)
  · intro h
    unfold Vdp.poke_cram; dsimp only
    rw [Nat.mod_eq_of_lt hv, if_neg (not_not_intro h)]
  · intro h
    refine ⟨fun x => ?_, fun i j => ?_⟩
    · rw [Vdp.poke_cram_cram, Nat.mod_eq_of_lt hv]
    · unfold Vdp.poke_cram; dsimp only
      rw [Nat.mod_eq_of_lt hv, if_pos h]
      dsimp only
      have hB := cramDirtByte_lt (a % 128)
      exact dirt_two_bit_update s.dirt (0x20 + cramDirtByte (a % 128))
        (cramDirtBit (a % 128)) 1 2 i j (by omega) (by rfl)
  · intro h
    unfold Vdp.poke_vsram; dsimp only
    rw [Nat.mod_eq_of_lt hv, if_neg (not_not_intro h)]
  · intro h
    refine ⟨fun x => ?_, fun i j => ?_⟩
    · rw [Vdp.poke_vsram_vsram, Nat.mod_eq_of_lt hv]
    · unfold Vdp.poke_vsram; dsimp only
      rw [Nat.mod_eq_of_lt hv, if_pos h]
      dsimp only
      exact dirt_one_bit_update s.dirt 2 4 i j (by rfl)

/-- All-zero state used to instantiate theorems at concrete inputs. -/
def zState : Vdp where
  vram := fun _ => 0
  cram := fun _ => 0
  vsram := fun _ => 0
  dirt := fun _ => 0
  reg := fun _ => 0
  rw_mode := 0
  rw_addr := 0
  rw_dma := false
  cmd_pending := false

theorem poke_dirty_tracking_witness :
    (1 : Nat) < 256 ∧ zState.vram (5 % 65536) ≠ 1 ∧
      (zState.poke_vram 5 1).vram 5 = if (5 : Nat) = 5 % 65536 then 1 else zState.vram 5 :=
  ⟨by decide, by decide,
    ((poke_dirty_tracking zState 5 1 (by decide)).2.1 (by decide)).1 5⟩

/-- C3: a word written through `putword` while the large bank is the write
target stores high byte at `address` and low byte at `address+1` when the
address is even, and the swapped order when it is odd; for the color and
offset banks the high byte always goes to `address` and the low byte to
`address+1`, with no alignment-dependent swap. -/
theorem putword_byte_order (s : Vdp) (d : Nat) (hd : d < 65536) :
    (s.rw_mode = 0x04 → s.rw_addr % 2 = 0 →
      (s.putword d).vram (s.rw_addr % 65536) = d / 256 ∧
      (s.putword d).vram ((s.rw_addr + 1) % 65536) = d % 256) ∧
    (s.rw_mode = 0x04 → s.rw_addr % 2 = 1 →
      (s.putword d).vram (s.rw_addr % 65536) = d % 256 ∧
      (s.putword d).vram ((s.rw_addr + 1) % 65536) = d / 256) ∧
    (s.rw_mode = 0x0c →
      (s.putword d).cram (s.rw_addr % 128) = d / 256 ∧
      (s.putword d).cram ((s.rw_addr + 1) % 128) = d % 256) ∧
    (s.rw_mode = 0x14 →
      (s.putword d).vsram (s.rw_addr % 128) = d / 256 ∧
      (s.putword d).vsram ((s.rw_addr + 1) % 128) = d % 256) := by
  rw [show d / 256 = d % 65536 / 256 by rw [Nat.mod_eq_of_lt hd],
    show d % 256 = d % 65536 % 256 by rw [Nat.mod_eq_of_lt hd]]
  refine ⟨fun hm he => ⟨?_, ?_⟩, fun hm ho => ⟨?_, ?_⟩, fun hm => ⟨?_, ?_⟩, fun hm => ⟨?_, ?_⟩⟩
  · rw [Vdp.putword_vram_even s d _ hm he, if_neg (by omega), if_pos rfl]
  · rw [Vdp.putword_vram_even s d _ hm he, if_pos rfl]
  · rw [Vdp.putword_vram_odd s d _ hm ho, if_neg (by omega), if_pos rfl]
  · rw [Vdp.putword_vram_odd s d _ hm ho, if_pos rfl]
  · rw [Vdp.putword_cram_eq s d _ hm, if_neg (by omega), if_pos rfl]
  · rw [Vdp.putword_cram_eq s d _ hm, if_pos rfl]
  · rw [Vdp.putword_vsram_eq s d _ hm, if_neg (by omega), if_pos rfl]
  · rw [Vdp.putword_vsram_eq s d _ hm, if_pos rfl]

theorem putword_byte_order_witness :
    (0xaabb : Nat) < 65536 ∧ ({ zState with rw_mode := 0x04 } : Vdp).rw_mode = 0x04 ∧
      ({ zState with rw_mode := 0x04 } : Vdp).rw_addr % 2 = 0 ∧
      (({ zState with rw_mode := 0x04 } : Vdp).putword 0xaabb).vram
        (({ zState with rw_mode := 0x04 } : Vdp).rw_addr % 65536) = 0xaabb / 256 :=
  ⟨by decide, by decide, by decide,
    ((putword_byte_order { zState with rw_mode := 0x04 } 0xaabb (by decide)).1
      (by decide) (by decide)).1⟩

/-- C9: round-trip — after a masked byte write to any bank, a data-port
byte read in the matching read mode at the same address returns the
written value. -/
theorem write_read_roundtrip (s : Vdp) (a v : Nat) (hv : v < 256) :
    (a < 65536 →
      ({ s.poke_vram a v with rw_mode := 0x00, rw_addr := a } : Vdp).readbyte.1 = v) ∧
    (a < 128 →
      ({ s.poke_cram a v with rw_mode := 0x20, rw_addr := a } : Vdp).readbyte.1 = v) ∧
    (a < 128 →
      ({ s.poke_vsram a v with rw_mode := 0x10, rw_addr := a } : Vdp).readbyte.1 = v) := by
  refine ⟨fun _ => ?_, fun _ => ?_, fun _ => ?_⟩
  · unfold Vdp.readbyte; dsimp only
    rw [if_pos rfl, Nat.add_zero, Vdp.poke_vram_vram, if_pos rfl, Nat.mod_eq_of_lt hv]
  · unfold Vdp.readbyte; dsimp only
    rw [if_neg (by omega), if_pos rfl, Nat.add_zero, Vdp.poke_cram_cram, if_pos rfl,
      Nat.mod_eq_of_lt hv]
  · unfold Vdp.readbyte; dsimp only
    rw [if_neg (by omega), if_neg (by omega), if_pos rfl, Nat.add_zero, Vdp.poke_vsram_vsram,
      if_pos rfl, Nat.mod_eq_of_lt hv]

theorem write_read_roundtrip_witness :
    (0xab : Nat) < 256 ∧ (0x42 : Nat) < 128 ∧
      ({ zState.poke_cram 0x42 0xab with rw_mode := 0x20, rw_addr := 0x42 } : Vdp).readbyte.1
        = 0xab :=
  ⟨by decide, by decide,
    (write_read_roundtrip zState 0x42 0xab (by decide)).2.1 (by decide)⟩

/-- C8 (amended): all 16-bit port addresses, 7-bit bank addresses and all
dirty-table indices used by the write primitives are in range after
masking, and the register-file store index is in range for the contract's
indices 0-31; `write_reg` applies no mask to its 8-bit register index, so
indices 32-255 index past the 32-byte register file. -/
theorem masked_access_in_range :
    (∀ a, a % 65536 < vramSize) ∧
    (∀ a, a % 128 < cramSize) ∧
    (∀ a, a % 128 < vsramSize) ∧
    (∀ a, 0x00 + vramDirtByte a < dirtSize) ∧
    (∀ a, 0x20 + cramDirtByte a < dirtSize) ∧
    (∀ a, 0x30 + regDirtByte a < dirtSize) ∧
    (0x34 < dirtSize) ∧
    (∀ addr, addr < 0x20 → writeRegStoreIndex addr < regFileSize) := by
  refine ⟨fun a => ?_, fun a => ?_, fun a => ?_, fun a => ?_, fun a => ?_, fun a => ?_,
    ?_, fun addr h => ?_⟩
  · unfold vramSize; omega
  · unfold cramSize; omega
  · unfold vsramSize; omega
  · have := vramDirtByte_lt a; unfold dirtSize; omega
  · have := cramDirtByte_lt a; unfold dirtSize; omega
  · have := regDirtByte_lt a; unfold dirtSize; omega
  · unfold dirtSize; omega
  · unfold writeRegStoreIndex regFileSize; omega

theorem masked_access_in_range_witness :
    (5 : Nat) < 0x20 ∧ writeRegStoreIndex 5 < regFileSize :=
  ⟨by decide, masked_access_in_range.2.2.2.2.2.2.2 5 (by decide)⟩

/-- C8 counterexample: the register index 0x20 — a valid 8-bit value for
`write_reg`'s `uint8_t` parameter — is used unmasked as the register-file
store index and is not within the 0x20-byte register file. -/
theorem write_reg_index_not_in_range :
    writeRegStoreIndex 0x20 = 0x20 ∧ ¬ writeRegStoreIndex 0x20 < regFileSize := by
  decide

theorem fillLoopW_proj (d n : Nat) (t : Vdp) :
    (fillLoopW d n t).reg = t.reg ∧ (fillLoopW d n t).rw_mode = t.rw_mode ∧
    (fillLoopW d n t).rw_dma = t.rw_dma ∧ (fillLoopW d n t).cmd_pending = t.cmd_pending := by
  induction n generalizing t with
  | zero => exact ⟨rfl, rfl, rfl, rfl⟩
  | succ n ih =>
    have h := ih (t.putword d)
    exact ⟨by rw [fillLoopW, h.1, Vdp.putword_reg],
      by rw [fillLoopW, h.2.1, Vdp.putword_rw_mode],
      by rw [fillLoopW, h.2.2.1, Vdp.putword_rw_dma],
      by rw [fillLoopW, h.2.2.2, Vdp.putword_cmd_pending]⟩

theorem fillLoopB_proj (d n : Nat) (t : Vdp) :
    (fillLoopB d n t).reg = t.reg ∧ (fillLoopB d n t).rw_mode = t.rw_mode ∧
    (fillLoopB d n t).rw_dma = t.rw_dma ∧ (fillLoopB d n t).cmd_pending = t.cmd_pending := by
  induction n generalizing t with
  | zero => exact ⟨rfl, rfl, rfl, rfl⟩
  | succ n ih =>
    have h := ih (t.putbyte d)
    exact ⟨by rw [fillLoopB, h.1, Vdp.putbyte_reg],
      by rw [fillLoopB, h.2.1, Vdp.putbyte_rw_mode],
      by rw [fillLoopB, h.2.2.1, Vdp.putbyte_rw_dma],
      by rw [fillLoopB, h.2.2.2, Vdp.putbyte_cmd_pending]⟩

theorem dmaLoop01_proj (ext : Nat → Nat) (n src : Nat) (t : Vdp) :
    (dmaLoop01 ext n src t).reg = t.reg ∧ (dmaLoop01 ext n src t).rw_mode = t.rw_mode ∧
    (dmaLoop01 ext n src t).rw_dma = t.rw_dma ∧
    (dmaLoop01 ext n src t).cmd_pending = t.cmd_pending := by
  induction n generalizing src t with
  | zero => exact ⟨rfl, rfl, rfl, rfl⟩
  | succ n ih =>
    have h := ih (src + 2) (t.putword ((dma_mem_read ext src <<< 8) ||| dma_mem_read ext (src + 1)))
    exact ⟨by rw [dmaLoop01, h.1, Vdp.putword_reg],
      by rw [dmaLoop01, h.2.1, Vdp.putword_rw_mode],
      by rw [dmaLoop01, h.2.2.1, Vdp.putword_rw_dma],
      by rw [dmaLoop01, h.2.2.2, Vdp.putword_cmd_pending]⟩

theorem dmaLoop3_proj (n src : Nat) (t : Vdp) :
    (dmaLoop3 n src t).reg = t.reg ∧ (dmaLoop3 n src t).rw_mode = t.rw_mode ∧
    (dmaLoop3 n src t).rw_dma = t.rw_dma ∧ (dmaLoop3 n src t).cmd_pending = t.cmd_pending := by
  induction n generalizing src t with
  | zero => exact ⟨rfl, rfl, rfl, rfl⟩
  | succ n ih =>
    have h := ih (src + 2) (t.putword ((t.vram (src % 65536) <<< 8) ||| t.vram ((src + 1) % 65536)))
    exact ⟨by rw [dmaLoop3, h.1, Vdp.putword_reg],
      by rw [dmaLoop3, h.2.1, Vdp.putword_rw_mode],
      by rw [dmaLoop3, h.2.2.1, Vdp.putword_rw_dma],
      by rw [dmaLoop3, h.2.2.2, Vdp.putword_cmd_pending]⟩

theorem fillLoopW_rw_addr (d n : Nat) (t : Vdp) (ht : t.rw_addr < 0x100000000) :
    (fillLoopW d n t).rw_addr = (t.rw_addr + n * t.reg 15) % 0x100000000 := by
  induction n generalizing t with
  | zero => simpa using (Nat.mod_eq_of_lt ht).symm
  | succ n ih =>
    rw [fillLoopW, ih (t.putword d) (by rw [Vdp.putword_rw_addr]; omega),
      Vdp.putword_rw_addr, Vdp.putword_reg]
    generalize t.reg 15 = r
    generalize hk : n * r = k
    have : (n + 1) * r = k + r := by rw [← hk]; ring
    rw [this]
    omega

theorem fillLoopB_rw_addr (d n : Nat) (t : Vdp) (ht : t.rw_addr < 0x100000000) :
    (fillLoopB d n t).rw_addr = (t.rw_addr + n * t.reg 15) % 0x100000000 := by
  induction n generalizing t with
  | zero => simpa using (Nat.mod_eq_of_lt ht).symm
  | succ n ih =>
    rw [fillLoopB, ih (t.putbyte d) (by rw [Vdp.putbyte_rw_addr]; omega),
      Vdp.putbyte_rw_addr, Vdp.putbyte_reg]
    generalize t.reg 15 = r
    generalize hk : n * r = k
    have : (n + 1) * r = k + r := by rw [← hk]; ring
    rw [this]
    omega

theorem dmaLoop01_rw_addr (ext : Nat → Nat) (n src : Nat) (t : Vdp)
    (ht : t.rw_addr < 0x100000000) :
    (dmaLoop01 ext n src t).rw_addr = (t.rw_addr + n * t.reg 15) % 0x100000000 := by
  induction n generalizing src t with
  | zero => simpa using (Nat.mod_eq_of_lt ht).symm
  | succ n ih =>
    rw [dmaLoop01, ih (src + 2) _ (by rw [Vdp.putword_rw_addr]; omega),
      Vdp.putword_rw_addr, Vdp.putword_reg]
    generalize t.reg 15 = r
    generalize hk : n * r = k
    have : (n + 1) * r = k + r := by rw [← hk]; ring
    rw [this]
    omega

theorem fillLoopW_banks (d n : Nat) (t : Vdp) (h4 : t.rw_mode ≠ 0x04)
    (hc : t.rw_mode ≠ 0x0c) (hv : t.rw_mode ≠ 0x14) :
    (fillLoopW d n t).vram = t.vram ∧ (fillLoopW d n t).cram = t.cram ∧
    (fillLoopW d n t).vsram = t.vsram ∧ (fillLoopW d n t).dirt = t.dirt := by
  induction n generalizing t with
  | zero => exact ⟨rfl, rfl, rfl, rfl⟩
  | succ n ih =>
    have h := ih (t.putword d) (by simpa using h4) (by simpa using hc) (by simpa using hv)
    exact ⟨by rw [fillLoopW, h.1, Vdp.putword_vram_of_ne _ _ h4],
      by rw [fillLoopW, h.2.1, Vdp.putword_cram_of_ne _ _ hc],
      by rw [fillLoopW, h.2.2.1, Vdp.putword_vsram_of_ne _ _ hv],
      by rw [fillLoopW, h.2.2.2, Vdp.putword_dirt_of_none _ _ h4 hc hv]⟩

theorem fillLoopB_banks (d n : Nat) (t : Vdp) (h4 : t.rw_mode ≠ 0x04)
    (hc : t.rw_mode ≠ 0x0c) (hv : t.rw_mode ≠ 0x14) :
    (fillLoopB d n t).vram = t.vram ∧ (fillLoopB d n t).cram = t.cram ∧
    (fillLoopB d n t).vsram = t.vsram ∧ (fillLoopB d n t).dirt = t.dirt := by
  induction n generalizing t with
  | zero => exact ⟨rfl, rfl, rfl, rfl⟩
  | succ n ih =>
    have h := ih (t.putbyte d) (by simpa using h4) (by simpa using hc) (by simpa using hv)
    exact ⟨by rw [fillLoopB, h.1, Vdp.putbyte_vram_of_ne _ _ h4],
      by rw [fillLoopB, h.2.1, Vdp.putbyte_cram_of_ne _ _ hc],
      by rw [fillLoopB, h.2.2.1, Vdp.putbyte_vsram_of_ne _ _ hv],
      by rw [fillLoopB, h.2.2.2, Vdp.putbyte_dirt_of_none _ _ h4 hc hv]⟩

@[simp] theorem Vdp.write_reg_vram (s : Vdp) (a v : Nat) : (s.write_reg a v).vram = s.vram := by
  unfold Vdp.write_reg; dsimp only; split_ifs <;> rfl

@[simp] theorem Vdp.write_reg_cram (s : Vdp) (a v : Nat) : (s.write_reg a v).cram = s.cram := by
  unfold Vdp.write_reg; dsimp only; split_ifs <;> rfl

@[simp] theorem Vdp.write_reg_vsram (s : Vdp) (a v : Nat) : (s.write_reg a v).vsram = s.vsram := by
  unfold Vdp.write_reg; dsimp only; split_ifs <;> rfl

@[simp] theorem Vdp.write_reg_rw_mode (s : Vdp) (a v : Nat) : (s.write_reg a v).rw_mode = 0 := by
  unfold Vdp.write_reg; dsimp only

@[simp] theorem Vdp.write_reg_rw_addr (s : Vdp) (a v : Nat) :
    (s.write_reg a v).rw_addr = s.rw_addr := by
  unfold Vdp.write_reg; dsimp only; split_ifs <;> rfl

@[simp] theorem Vdp.write_reg_rw_dma (s : Vdp) (a v : Nat) :
    (s.write_reg a v).rw_dma = s.rw_dma := by
  unfold Vdp.write_reg; dsimp only; split_ifs <;> rfl

@[simp] theorem Vdp.write_reg_cmd_pending (s : Vdp) (a v : Nat) :
    (s.write_reg a v).cmd_pending = s.cmd_pending := by
  unfold Vdp.write_reg; dsimp only; split_ifs <;> rfl

theorem Vdp.write_reg_reg (s : Vdp) (a v x : Nat) :
    (s.write_reg a v).reg x =
      if x = writeRegStoreIndex a then v % 256 else s.reg x := by
  unfold Vdp.write_reg updateFn; dsimp only
  split_ifs <;> rfl

theorem Vdp.writeword_reg (s : Vdp) (d : Nat) : (s.writeword d).reg = s.reg := by
  unfold Vdp.writeword; dsimp only
  split_ifs <;> simp [(fillLoopW_proj _ _ _).1]

theorem Vdp.writeword_rw_dma (s : Vdp) (d : Nat) : (s.writeword d).rw_dma = s.rw_dma := by
  unfold Vdp.writeword; dsimp only
  split_ifs <;> simp [(fillLoopW_proj _ _ _).2.2.1]

theorem Vdp.writeword_rw_mode (s : Vdp) (d : Nat) : (s.writeword d).rw_mode = s.rw_mode := by
  unfold Vdp.writeword; dsimp only
  split_ifs <;> simp [(fillLoopW_proj _ _ _).2.1]

theorem Vdp.writebyte_reg (s : Vdp) (d : Nat) : (s.writebyte d).reg = s.reg := by
  unfold Vdp.writebyte; dsimp only
  split_ifs <;> simp [(fillLoopB_proj _ _ _).1]

theorem Vdp.writebyte_rw_dma (s : Vdp) (d : Nat) : (s.writebyte d).rw_dma = s.rw_dma := by
  unfold Vdp.writebyte; dsimp only
  split_ifs <;> simp [(fillLoopB_proj _ _ _).2.2.1]

theorem Vdp.writeword_banks_of_none (s : Vdp) (d : Nat) (h4 : s.rw_mode ≠ 0x04)
    (hc : s.rw_mode ≠ 0x0c) (hv : s.rw_mode ≠ 0x14) :
    (s.writeword d).vram = s.vram ∧ (s.writeword d).cram = s.cram ∧
    (s.writeword d).vsram = s.vsram ∧ (s.writeword d).dirt = s.dirt := by
  unfold Vdp.writeword; dsimp only
  split_ifs
  · exact fillLoopW_banks _ _ _ h4 hc hv
  · exact ⟨rfl, rfl, rfl, rfl⟩
  · exact ⟨Vdp.putword_vram_of_ne _ _ h4, Vdp.putword_cram_of_ne _ _ hc,
      Vdp.putword_vsram_of_ne _ _ hv, Vdp.putword_dirt_of_none _ _ h4 hc hv⟩

theorem Vdp.writebyte_banks_of_none (s : Vdp) (d : Nat) (h4 : s.rw_mode ≠ 0x04)
    (hc : s.rw_mode ≠ 0x0c) (hv : s.rw_mode ≠ 0x14) :
    (s.writebyte d).vram = s.vram ∧ (s.writebyte d).cram = s.cram ∧
    (s.writebyte d).vsram = s.vsram ∧ (s.writebyte d).dirt = s.dirt := by
  unfold Vdp.writebyte; dsimp only
  split_ifs
  · exact fillLoopB_banks _ _ _ h4 hc hv
  · exact ⟨rfl, rfl, rfl, rfl⟩
  · exact ⟨Vdp.putbyte_vram_of_ne _ _ h4, Vdp.putbyte_cram_of_ne _ _ hc,
      Vdp.putbyte_vsram_of_ne _ _ hv, Vdp.putbyte_dirt_of_none _ _ h4 hc hv⟩

/-- C7: `write_reg` stores the value into the register file
unconditionally, sets the register dirty bit (1-byte granularity) and the
register summary flag only when the value changes, and always clears the
operation/direction state (`rw_mode = 0`), so that a subsequent data-port
write stores nothing into any bank (and leaves dirty tracking untouched). -/
theorem write_reg_spec (s : Vdp) (a v : Nat) (ha : a < 0x20) (hv : v < 256) :
    (∀ x, (s.write_reg a v).reg x = if x = a then v else s.reg x) ∧
    (s.write_reg a v).rw_mode = 0 ∧
    (s.reg a = v → (s.write_reg a v).dirt = s.dirt) ∧
    (s.reg a ≠ v →
      ∀ i j, Nat.testBit ((s.write_reg a v).dirt i) j = true ↔
        (Nat.testBit (s.dirt i) j = true ∨ (i = 0x30 + regDirtByte a ∧ j = regDirtBit a) ∨
          (i = 0x34 ∧ j = 3))) ∧
    (∀ d, ((s.write_reg a v).writeword d).vram = s.vram ∧
      ((s.write_reg a v).writeword d).cram = s.cram ∧
      ((s.write_reg a v).writeword d).vsram = s.vsram ∧
      ((s.write_reg a v).writeword d).dirt = (s.write_reg a v).dirt) ∧
    (∀ d, ((s.write_reg a v).writebyte d).vram = s.vram ∧
      ((s.write_reg a v).writebyte d).cram = s.cram ∧
      ((s.write_reg a v).writebyte d).vsram = s.vsram ∧
      ((s.write_reg a v).writebyte d).dirt = (s.write_reg a v).dirt) := by
  have e1 : a % 256 = a := by omega
  have e2 : v % 256 = v := by omega
  refine ⟨fun x => ?_, by simp, fun h => ?_, fun h => ?_, fun d => ?_, fun d => ?_⟩
  · rw [Vdp.write_reg_reg]
    unfold writeRegStoreIndex
    rw [e1, e2]
  · unfold Vdp.write_reg writeRegStoreIndex; dsimp only
    rw [e1, e2, if_neg (not_not_intro h)]
  · intro i j
    unfold Vdp.write_reg writeRegStoreIndex; dsimp only
    rw [e1, e2, if_pos h]
    dsimp only
    have hB := regDirtByte_lt a
    exact dirt_two_bit_update s.dirt (0x30 + regDirtByte a) (regDirtBit a) 3 8 i j
      (by omega) (by rfl)
  · have hb := Vdp.writeword_banks_of_none (s.write_reg a v) d (by simp) (by simp) (by simp)
    exact ⟨by rw [hb.1, Vdp.write_reg_vram], by rw [hb.2.1, Vdp.write_reg_cram],
      by rw [hb.2.2.1, Vdp.write_reg_vsram], hb.2.2.2⟩
  · have hb := Vdp.writebyte_banks_of_none (s.write_reg a v) d (by simp) (by simp) (by simp)
    exact ⟨by rw [hb.1, Vdp.write_reg_vram], by rw [hb.2.1, Vdp.write_reg_cram],
      by rw [hb.2.2.1, Vdp.write_reg_vsram], hb.2.2.2⟩

theorem write_reg_spec_witness :
    (5 : Nat) < 0x20 ∧ (0xab : Nat) < 256 ∧
      (zState.write_reg 5 0xab).reg 5 = (if (5 : Nat) = 5 then 0xab else zState.reg 5) ∧
      (zState.write_reg 5 0xab).rw_mode = 0 :=
  ⟨by decide, by decide, (write_reg_spec zState 5 0xab (by decide) (by decide)).1 5,
    (write_reg_spec zState 5 0xab (by decide) (by decide)).2.1⟩

/-- Zero external byte source used for concrete instances. -/
def extZero : Nat → Nat := fun _ => 0

/-- Concrete state with `rw_dma` set but transfer mode 0 (not fill). -/
def cexC6 : Vdp := { zState with rw_dma := true, rw_mode := 0x04, reg := updateFn zState.reg 15 2 }

/-- C6 counterexample: with `rw_dma` set and transfer-mode 0, a fill DMA is
not armed, yet the data-port word write stores nothing and does not
advance the address — the single-write path claimed for every non-armed
state does not run. -/
theorem writeword_armed_nonfill_drops :
    cexC6.rw_dma = true ∧ ¬ cexC6.fillArmed ∧
    (cexC6.writeword 0x1234).vram 0 = 0 ∧ ¬ (cexC6.writeword 0x1234).vram 0 = 0x12 ∧
    (cexC6.writeword 0x1234).rw_addr = 0 := by
  decide

/-- C6 (amended): the single-write path runs exactly when `rw_dma` is
clear — it splits the word into two bytes, stores them through the masked
byte-write primitive at `address`/`address+1` and advances the address;
when `rw_dma` is set with transfer-mode 2 the deferred fill runs instead,
and when `rw_dma` is set with any other transfer mode the write is dropped
entirely (no store, no address advance). -/
theorem writeword_dispatch (s : Vdp) (d : Nat) (hd : d < 65536) :
    (s.rw_dma = false → s.writeword d = s.putword d) ∧
    (s.rw_dma = false → s.rw_mode = 0x04 → s.rw_addr % 2 = 0 →
      (s.writeword d).vram (s.rw_addr % 65536) = d / 256 ∧
      (s.writeword d).vram ((s.rw_addr + 1) % 65536) = d % 256 ∧
      (s.writeword d).rw_addr = (s.rw_addr + s.reg 15) % 0x100000000) ∧
    (s.rw_dma = true → (s.reg 0x17 >>> 6) &&& 3 = 2 →
      s.writeword d = fillLoopW d s.dma_len s) ∧
    (s.rw_dma = true → (s.reg 0x17 >>> 6) &&& 3 ≠ 2 → s.writeword d = s) := by
  have hww : s.rw_dma = false → s.writeword d = s.putword d := by
    intro h
    unfold Vdp.writeword; dsimp only
    rw [Nat.mod_eq_of_lt hd]
    simp [h]
  refine ⟨hww, fun h hm he => ?_, fun h hm => ?_, fun h hm => ?_⟩
  · rw [hww h]
    refine ⟨?_, ?_, by rw [Vdp.putword_rw_addr]⟩
    · rw [Vdp.putword_vram_even s d _ hm he, if_neg (by omega), if_pos rfl,
        Nat.mod_eq_of_lt hd]
    · rw [Vdp.putword_vram_even s d _ hm he, if_pos rfl, Nat.mod_eq_of_lt hd]
  · unfold Vdp.writeword; dsimp only
    rw [Nat.mod_eq_of_lt hd]
    simp [h, hm]
  · unfold Vdp.writeword; dsimp only
    simp [h, hm]

theorem writeword_dispatch_witness :
    (0x1234 : Nat) < 65536 ∧ ({ zState with rw_mode := 0x04 } : Vdp).rw_dma = false ∧
      (({ zState with rw_mode := 0x04 } : Vdp).writeword 0x1234).vram
        (({ zState with rw_mode := 0x04 } : Vdp).rw_addr % 65536) = 0x1234 / 256 :=
  ⟨by decide, by decide,
    ((writeword_dispatch { zState with rw_mode := 0x04 } 0x1234 (by decide)).2.1
      (by decide) (by decide) (by decide)).1⟩

/-- C10: data-port writes never change `rw_dma` (nor do reads or register
writes); submitting a command word from the non-pending state clears it;
and from a fill-armed state each data-port word write performs the whole
length-repetition fill again — the armed condition persists and the
address advances by `length * auto_increment` on every write. -/
theorem fill_armed_persistence (ext : Nat → Nat) (s : Vdp)
    (hs : s.rw_addr < 0x100000000) :
    (∀ d, (s.writeword d).rw_dma = s.rw_dma) ∧
    (∀ d, (s.writebyte d).rw_dma = s.rw_dma) ∧
    (s.readword.2.rw_dma = s.rw_dma) ∧
    (s.readbyte.2.rw_dma = s.rw_dma) ∧
    (∀ a v, (s.write_reg a v).rw_dma = s.rw_dma) ∧
    (s.cmd_pending = false → ∀ c, (s.command ext c).rw_dma = false) ∧
    (s.fillArmed → ∀ d d',
      (s.writeword d).rw_dma = true ∧ (s.writeword d).fillArmed ∧
      (s.writeword d).rw_addr = (s.rw_addr + s.dma_len * s.reg 15) % 0x100000000 ∧
      ((s.writeword d).writeword d').rw_addr
        = (s.rw_addr + s.dma_len * s.reg 15 + s.dma_len * s.reg 15) % 0x100000000) := by
  have hwfill : ∀ (t : Vdp) (d : Nat), t.fillArmed →
      t.writeword d = fillLoopW (d % 65536) t.dma_len t := by
    intro t d ht
    unfold Vdp.writeword; dsimp only
    simp [ht.1, ht.2]
  have hwaddr : ∀ (t : Vdp) (d : Nat), t.fillArmed → t.rw_addr < 0x100000000 →
      (t.writeword d).rw_addr = (t.rw_addr + t.dma_len * t.reg 15) % 0x100000000 := by
    intro t d ht hta
    rw [hwfill t d ht, fillLoopW_rw_addr _ _ _ hta]
  refine ⟨fun d => Vdp.writeword_rw_dma s d, fun d => Vdp.writebyte_rw_dma s d, rfl, rfl,
    fun a v => by simp, fun h c => ?_, fun hf d d' => ?_⟩
  · unfold Vdp.command; dsimp only
    simp [h]
  · have hf1 : (s.writeword d).fillArmed := by
      refine ⟨by rw [Vdp.writeword_rw_dma]; exact hf.1, ?_⟩
      rw [Vdp.writeword_reg]
      exact hf.2
    have ha1 : (s.writeword d).rw_addr
        = (s.rw_addr + s.dma_len * s.reg 15) % 0x100000000 := hwaddr s d hf hs
    refine ⟨by rw [Vdp.writeword_rw_dma]; exact hf.1, hf1, ha1, ?_⟩
    have hlen : (s.writeword d).dma_len = s.dma_len := by
      unfold Vdp.dma_len
      rw [Vdp.writeword_reg]
    have hreg : (s.writeword d).reg 15 = s.reg 15 := by rw [Vdp.writeword_reg]
    rw [hwaddr (s.writeword d) d' hf1 (by rw [ha1]; omega), hlen, hreg, ha1]
    generalize s.dma_len * s.reg 15 = k
    omega

theorem fill_armed_persistence_witness :
    zState.rw_addr < 0x100000000 ∧ (zState.write_reg 3 7).rw_dma = zState.rw_dma :=
  ⟨by decide, (fill_armed_persistence extZero zState (by decide)).2.2.2.2.1 3 7⟩

/-- A second command word whose transfer mode field is 2 only latches the
addressing state: the mode-2 arm of the DMA switch does nothing. -/
theorem Vdp.command_second_mode2 (s : Vdp) (ext : Nat → Nat) (cmd : Nat)
    (hp : s.cmd_pending = true) (hmode : (s.reg 0x17 >>> 6) &&& 3 = 2) :
    s.command ext cmd =
      { s with
        rw_addr := 65537 * (((s.rw_addr &&& 0xffff3fff)
          ||| ((cmd % 65536 &&& 0x0003) <<< 14)) % 65536),
        rw_mode := s.rw_mode ||| (cmd % 65536 &&& 0x0070),
        rw_dma := (cmd % 65536 &&& 0x80) == 0x80,
        cmd_pending := false } := by
  unfold Vdp.command
  rw [if_pos hp]
  dsimp only
  rw [mirror_eq]
  split_ifs with h1 h2 h3
  · rcases h2 with h2 | h2 <;> (rw [hmode] at h2; omega)
  · rw [hmode] at h3; omega
  · rfl
  · rfl

/-- Register/length base for the fill counterexample and witnesses:
transfer mode 2 (`reg[0x17] = 0x80`), length 2, auto-increment 2. -/
def cexC4base : Vdp :=
  { zState with reg := updateFn (updateFn (updateFn zState.reg 0x17 0x80) 0x13 2) 15 2 }

/-- C4 counterexample: arm a fill through a real two-word command
(`0x4000`, `0x0080` with transfer mode 2); after the next data-port word
write — which performs the fill — the armed pending-fill condition still
holds (`rw_dma` remains set), so it is not consumed by that write. -/
theorem dma_fill_not_consumed :
    ((cexC4base.command extZero 0x4000).command extZero 0x0080).fillArmed ∧
    (((cexC4base.command extZero 0x4000).command extZero 0x0080).writeword 0xabcd).rw_dma
      = true ∧
    (((cexC4base.command extZero 0x4000).command extZero 0x0080).writeword 0xabcd).fillArmed := by
  decide

/-- C4 (amended): a completed command with the DMA bit set and transfer
mode 2 performs no transfer at command-completion time (all banks and
dirty state unchanged — in particular, if no data-port write ever arrives
the destination bank is untouched) and arms the fill; the next data-port
word write of `v` runs the fill loop — `putword v` repeated `dma_len`
times, the address auto-incrementing after each repetition; the armed
condition is NOT consumed by that write: `rw_dma` stays set (only a new
command word clears it), so further writes repeat the fill. -/
theorem dma_fill_deferred (ext : Nat → Nat) (s : Vdp) (w2 : Nat)
    (hp : s.cmd_pending = true) (hw : w2 < 65536) (h80 : w2 &&& 0x80 = 0x80)
    (hmode : (s.reg 0x17 >>> 6) &&& 3 = 2) :
    (s.command ext w2).vram = s.vram ∧ (s.command ext w2).cram = s.cram ∧
    (s.command ext w2).vsram = s.vsram ∧ (s.command ext w2).dirt = s.dirt ∧
    (s.command ext w2).rw_dma = true ∧ (s.command ext w2).cmd_pending = false ∧
    (s.command ext w2).fillArmed ∧
    (∀ v, v < 65536 →
      (s.command ext w2).writeword v
        = fillLoopW v (s.command ext w2).dma_len (s.command ext w2) ∧
      ((s.command ext w2).writeword v).rw_dma = true ∧
      ((s.command ext w2).writeword v).rw_addr
        = ((s.command ext w2).rw_addr
            + (s.command ext w2).dma_len * s.reg 15) % 0x100000000) := by
  have hb : ((w2 % 65536 &&& 0x80) == 0x80) = true := by
    rw [Nat.mod_eq_of_lt hw, h80]
    rfl
  have hc : s.command ext w2 =
      { s with
        rw_addr := 65537 * (((s.rw_addr &&& 0xffff3fff)
          ||| ((w2 % 65536 &&& 0x0003) <<< 14)) % 65536),
        rw_mode := s.rw_mode ||| (w2 % 65536 &&& 0x0070),
        rw_dma := true,
        cmd_pending := false } := by
    rw [Vdp.command_second_mode2 s ext w2 hp hmode, hb]
  have hfa : (s.command ext w2).fillArmed := by
    rw [hc]
    exact ⟨rfl, hmode⟩
  refine ⟨by rw [hc], by rw [hc], by rw [hc], by rw [hc], by rw [hc], by rw [hc], hfa,
    fun v hv => ?_⟩
  have hwf : (s.command ext w2).writeword v
      = fillLoopW (v % 65536) (s.command ext w2).dma_len (s.command ext w2) := by
    unfold Vdp.writeword; dsimp only
    simp [hfa.1, hfa.2]
  have haddr : (s.command ext w2).rw_addr < 0x100000000 := by
    rw [hc]
    dsimp only
    have : ((s.rw_addr &&& 0xffff3fff) ||| ((w2 % 65536 &&& 0x0003) <<< 14)) % 65536
        < 65536 := by omega
    omega
  refine ⟨by rw [hwf, Nat.mod_eq_of_lt hv], ?_, ?_⟩
  · rw [hwf, (fillLoopW_proj _ _ _).2.2.1, hc]
  · rw [hwf, fillLoopW_rw_addr _ _ _ haddr]
    have : (s.command ext w2).reg 15 = s.reg 15 := by rw [hc]
    rw [this]

theorem dma_fill_deferred_witness :
    ((cexC4base.command extZero 0x4000).cmd_pending = true ∧ (0x0080 : Nat) < 65536 ∧
      (0x0080 : Nat) &&& 0x80 = 0x80 ∧
      (((cexC4base.command extZero 0x4000).reg 0x17 >>> 6) &&& 3 = 2)) ∧
    ((cexC4base.command extZero 0x4000).command extZero 0x0080).vram
      = (cexC4base.command extZero 0x4000).vram :=
  ⟨⟨by decide, by decide, by decide, by decide⟩,
    (dma_fill_deferred extZero (cexC4base.command extZero 0x4000) 0x0080
      (by decide) (by decide) (by decide) (by decide)).1⟩

/-- The first command word commits the low 14 address bits (mirrored),
replaces `rw_mode` from bits 14-15, clears `rw_dma` and sets the pending
flag; it triggers no transfer. -/
theorem Vdp.command_first (s : Vdp) (ext : Nat → Nat) (cmd : Nat)
    (hp : s.cmd_pending = false) :
    s.command ext cmd =
      { s with
        rw_addr := 65537 * (((s.rw_addr &&& 0xffffc000) ||| (cmd % 65536 &&& 0x3fff)) % 65536),
        rw_mode := (cmd % 65536 &&& 0xc000) >>> 12,
        rw_dma := false,
        cmd_pending := true } := by
  unfold Vdp.command
  rw [if_neg (by simp [hp])]
  dsimp only
  rw [mirror_eq]

/-- Field content of a full second-word `command` call, including the case
split on the DMA bit: the protocol fields are identical in all DMA
branches, and without the DMA bit the address is exactly the latched,
mirrored value. -/
theorem Vdp.command_second_proj (s : Vdp) (ext : Nat → Nat) (cmd : Nat)
    (hp : s.cmd_pending = true) :
    (s.command ext cmd).cmd_pending = false ∧
    (s.command ext cmd).rw_mode = s.rw_mode ||| (cmd % 65536 &&& 0x0070) ∧
    (s.command ext cmd).rw_dma = ((cmd % 65536 &&& 0x80) == 0x80) ∧
    (s.command ext cmd).reg = s.reg ∧
    (cmd % 65536 &&& 0x80 ≠ 0x80 →
      (s.command ext cmd).rw_addr
        = 65537 * (((s.rw_addr &&& 0xffff3fff)
            ||| ((cmd % 65536 &&& 0x0003) <<< 14)) % 65536)) := by
  unfold Vdp.command
  rw [if_pos hp]
  dsimp only
  rw [mirror_eq]
  split_ifs with h1 h2 h3
  · have hproj := dmaLoop01_proj ext
      ((Vdp.dma_len { s with
        rw_addr := 65537 * (((s.rw_addr &&& 0xffff3fff)
          ||| ((cmd % 65536 &&& 0x0003) <<< 14)) % 65536),
        rw_mode := s.rw_mode ||| (cmd % 65536 &&& 0x0070),
        rw_dma := (cmd % 65536 &&& 0x80) == 0x80,
        cmd_pending := false }))
      ((Vdp.dma_addr { s with
        rw_addr := 65537 * (((s.rw_addr &&& 0xffff3fff)
          ||| ((cmd % 65536 &&& 0x0003) <<< 14)) % 65536),
        rw_mode := s.rw_mode ||| (cmd % 65536 &&& 0x0070),
        rw_dma := (cmd % 65536 &&& 0x80) == 0x80,
        cmd_pending := false }))
      { s with
        rw_addr := 65537 * (((s.rw_addr &&& 0xffff3fff)
          ||| ((cmd % 65536 &&& 0x0003) <<< 14)) % 65536),
        rw_mode := s.rw_mode ||| (cmd % 65536 &&& 0x0070),
        rw_dma := (cmd % 65536 &&& 0x80) == 0x80,
        cmd_pending := false }
    refine ⟨hproj.2.2.2, hproj.2.1, hproj.2.2.1, hproj.1, fun hne => ?_⟩
    exact absurd (eq_of_beq h1) hne
  · have hproj := dmaLoop3_proj
      ((Vdp.dma_len { s with
        rw_addr := 65537 * (((s.rw_addr &&& 0xffff3fff)
          ||| ((cmd % 65536 &&& 0x0003) <<< 14)) % 65536),
        rw_mode := s.rw_mode ||| (cmd % 65536 &&& 0x0070),
        rw_dma := (cmd % 65536 &&& 0x80) == 0x80,
        cmd_pending := false }))
      ((Vdp.dma_addr { s with
        rw_addr := 65537 * (((s.rw_addr &&& 0xffff3fff)
          ||| ((cmd % 65536 &&& 0x0003) <<< 14)) % 65536),
        rw_mode := s.rw_mode ||| (cmd % 65536 &&& 0x0070),
        rw_dma := (cmd % 65536 &&& 0x80) == 0x80,
        cmd_pending := false }))
      { s with
        rw_addr := 65537 * (((s.rw_addr &&& 0xffff3fff)
          ||| ((cmd % 65536 &&& 0x0003) <<< 14)) % 65536),
        rw_mode := s.rw_mode ||| (cmd % 65536 &&& 0x0070),
        rw_dma := (cmd % 65536 &&& 0x80) == 0x80,
        cmd_pending := false }
    refine ⟨hproj.2.2.2, hproj.2.1, hproj.2.2.1, hproj.1, fun hne => ?_⟩
    exact absurd (eq_of_beq h1) hne
  · exact ⟨rfl, rfl, rfl, rfl, fun _ => rfl⟩
  · exact ⟨rfl, rfl, rfl, rfl, fun _ => rfl⟩

/-- Registers for the C1 counterexample: transfer mode 3 (bank-internal
copy, needing no external source), length 1, auto-increment 2. -/
def cexC1 : Vdp :=
  { zState with reg := updateFn (updateFn (updateFn zState.reg 0x17 0xc0) 0x13 1) 15 2 }

/-- C1 counterexample: submitting `w1 = 0x4000`, `w2 = 0x0080` from a
non-pending state triggers a synchronous DMA transfer (bit 7 of `w2`)
whose word write advances the address by the auto-increment, so the final
address's low 14 bits are 2, not `w1 & 0x3fff = 0`. -/
theorem command_addr_advanced_by_dma :
    cexC1.cmd_pending = false ∧
    ((cexC1.command extZero 0x4000).command extZero 0x0080).rw_addr &&& 0x3fff = 2 ∧
    (0x4000 : Nat) &&& 0x3fff = 0 ∧
    ¬ ((cexC1.command extZero 0x4000).command extZero 0x0080).rw_addr &&& 0x3fff
        = (0x4000 : Nat) &&& 0x3fff := by
  decide

/-- C1 (amended): after two command words `w1`, `w2` from the non-pending
state, `command_pending` is false, `dma_armed` equals bit 7 of `w2`, and
the operation code is `w1`'s bits 14-15 (shifted into the low field) with
`w2 & 0x70` OR-merged on top; provided bit 7 of `w2` is clear — so that no
synchronous DMA transfer runs and moves the address — the final address
has low 14 bits `w1 & 0x3fff` and bits 14-15 `w2 & 3`. -/
theorem command_two_word_merge (ext : Nat → Nat) (s : Vdp) (w1 w2 : Nat)
    (hp : s.cmd_pending = false) (h1 : w1 < 65536) (h2 : w2 < 65536) :
    ((s.command ext w1).command ext w2).cmd_pending = false ∧
    ((s.command ext w1).command ext w2).rw_dma = ((w2 &&& 0x80) == 0x80) ∧
    ((s.command ext w1).command ext w2).rw_mode
      = ((w1 &&& 0xc000) >>> 12) ||| (w2 &&& 0x0070) ∧
    (w2 &&& 0x80 = 0 →
      ((s.command ext w1).command ext w2).rw_addr &&& 0x3fff = w1 &&& 0x3fff ∧
      (((s.command ext w1).command ext w2).rw_addr >>> 14) &&& 3 = w2 &&& 3) := by
  have hfirst := Vdp.command_first s ext w1 hp
  have hs1p : (s.command ext w1).cmd_pending = true := by rw [hfirst]
  have hs1m : (s.command ext w1).rw_mode = (w1 &&& 0xc000) >>> 12 := by
    rw [hfirst]
    dsimp only
    rw [Nat.mod_eq_of_lt h1]
  have hs1a : (s.command ext w1).rw_addr
      = 65537 * (((s.rw_addr &&& 0xffffc000) ||| (w1 &&& 0x3fff)) % 65536) := by
    rw [hfirst]
    dsimp only
    rw [Nat.mod_eq_of_lt h1]
  have hproj := Vdp.command_second_proj (s.command ext w1) ext w2 hs1p
  refine ⟨hproj.1, ?_, ?_, fun h80 => ?_⟩
  · rw [hproj.2.2.1, Nat.mod_eq_of_lt h2]
  · rw [hproj.2.1, Nat.mod_eq_of_lt h2, hs1m]
  · have hne : w2 % 65536 &&& 0x80 ≠ 0x80 := by
      rw [Nat.mod_eq_of_lt h2, h80]
      omega
    have haddr := hproj.2.2.2.2 hne
    rw [Nat.mod_eq_of_lt h2, hs1a] at haddr
    clear hproj hfirst hs1p hs1m hs1a hne
    rw [haddr, latch2_arith, latch1_arith, land_3fff, land_3fff, shr_eq_div, land_three,
      land_three]
    norm_num
    generalize s.rw_addr / 16384 % 262144 = H
    generalize hK1 : (w1 % 16384 + 16384 * H) % 65536 = K1
    have hw1K : K1 % 16384 = w1 % 16384 := by omega
    have e1 : 65537 * K1 % 16384 = K1 % 16384 := by
      rw [show 65537 * K1 = 16384 * (4 * K1) + K1 by ring]
      omega
    rw [e1]
    generalize hT : (K1 % 16384 + 16384 * (w2 % 4)) % 65536 = T
    have hT2 : T = K1 % 16384 + 16384 * (w2 % 4) := by omega
    rw [show 65537 * T = 16384 * (4 * T) + T by ring]
    constructor
    · have hm : (16384 * (4 * T) + T) % 16384 = T % 16384 := by omega
      rw [hm]
      omega
    · have hj : (16384 * (4 * T) + T) / 16384 = 4 * T + T / 16384 := by omega
      rw [hj]
      have hTd : T / 16384 = w2 % 4 := by omega
      rw [hTd]
      omega

theorem command_two_word_merge_witness :
    zState.cmd_pending = false ∧ (0x4123 : Nat) < 65536 ∧ (0x0012 : Nat) < 65536 ∧
      (0x0012 : Nat) &&& 0x80 = 0 ∧
      ((zState.command extZero 0x4123).command extZero 0x0012).rw_addr &&& 0x3fff
        = (0x4123 : Nat) &&& 0x3fff :=
  ⟨rfl, by decide, by decide, by decide,
    ((command_two_word_merge extZero zState 0x4123 0x0012 rfl (by decide)
      (by decide)).2.2.2 (by decide)).1⟩

/-- Proof-side view of a loop that issues one `putword` per iteration,
feeding word `f i` at iteration `i`. -/
def putwordSeq (f : Nat → Nat) : Nat → Vdp → Vdp
  | 0, t => t
  | n + 1, t => putwordSeq (fun i => f (i + 1)) n (t.putword (f 0))

/-- Effect of `putwordSeq` on VRAM in write mode 4 with even start address
and auto-increment 2: word `i` lands (big-endian) at offset `2*i`, no
other byte changes, and the cursor advances by `2*n`; the bound
`n ≤ 32768` keeps the written ranges from wrapping onto each other. -/
theorem putwordSeq_spec (f : Nat → Nat) (n : Nat) (t : Vdp)
    (hm : t.rw_mode = 0x04) (hr : t.reg 15 = 2) (he : t.rw_addr % 2 = 0)
    (ha : t.rw_addr < 0x100000000) (hn : n ≤ 32768) :
    (∀ i, i < n →
      (putwordSeq f n t).vram ((t.rw_addr + 2 * i) % 65536) = f i % 65536 / 256 ∧
      (putwordSeq f n t).vram ((t.rw_addr + 2 * i + 1) % 65536) = f i % 65536 % 256) ∧
    (∀ x, (∀ i, i < n →
        x ≠ (t.rw_addr + 2 * i) % 65536 ∧ x ≠ (t.rw_addr + 2 * i + 1) % 65536) →
      (putwordSeq f n t).vram x = t.vram x) ∧
    (putwordSeq f n t).rw_addr = (t.rw_addr + 2 * n) % 0x100000000 := by
  induction n generalizing f t with
  | zero =>
    refine ⟨fun i hi => absurd hi (by omega), fun x _ => rfl, ?_⟩
    show t.rw_addr = (t.rw_addr + 2 * 0) % 0x100000000
    omega
  | succ n ih =>
    have ht1m : (t.putword (f 0)).rw_mode = 0x04 := by rw [Vdp.putword_rw_mode]; exact hm
    have ht1r : (t.putword (f 0)).reg 15 = 2 := by rw [Vdp.putword_reg]; exact hr
    have ht1a : (t.putword (f 0)).rw_addr = (t.rw_addr + 2) % 0x100000000 := by
      rw [Vdp.putword_rw_addr, hr]
    have ht1e : (t.putword (f 0)).rw_addr % 2 = 0 := by rw [ht1a]; omega
    have ht1lt : (t.putword (f 0)).rw_addr < 0x100000000 := by rw [ht1a]; omega
    have hIH := ih (fun i => f (i + 1)) (t.putword (f 0)) ht1m ht1r ht1e ht1lt (by omega)
    have hcong : ∀ k, ((t.putword (f 0)).rw_addr + k) % 65536 = (t.rw_addr + 2 + k) % 65536 := by
      intro k
      rw [ht1a]
      omega
    have hseq : putwordSeq f (n + 1) t = putwordSeq (fun i => f (i + 1)) n (t.putword (f 0)) :=
      rfl
    refine ⟨fun i hi => ?_, fun x hx => ?_, ?_⟩
    · cases i with
      | zero =>
        have hpres0 : ∀ x,
            (∀ j, j < n → x ≠ (t.rw_addr + 2 + 2 * j) % 65536 ∧
              x ≠ (t.rw_addr + 2 + 2 * j + 1) % 65536) →
            (putwordSeq (fun i => f (i + 1)) n (t.putword (f 0))).vram x
              = (t.putword (f 0)).vram x := by
          intro x hj
          refine hIH.2.1 x fun j hjn => ?_
          rw [hcong (2 * j), show (t.putword (f 0)).rw_addr + 2 * j + 1
            = (t.putword (f 0)).rw_addr + (2 * j + 1) by ring, hcong (2 * j + 1)]
          exact hj j hjn
        rw [hseq]
        constructor
        · rw [show t.rw_addr + 2 * 0 = t.rw_addr by ring]
          rw [hpres0 (t.rw_addr % 65536) (fun j hjn => by constructor <;> omega)]
          rw [Vdp.putword_vram_even t (f 0) _ hm he, if_neg (by omega), if_pos rfl]
        · rw [show t.rw_addr + 2 * 0 + 1 = t.rw_addr + 1 by ring]
          rw [hpres0 ((t.rw_addr + 1) % 65536) (fun j hjn => by constructor <;> omega)]
          rw [Vdp.putword_vram_even t (f 0) _ hm he, if_pos rfl]
      | succ i =>
        have h := hIH.1 i (by omega)
        rw [hcong (2 * i), show (t.putword (f 0)).rw_addr + 2 * i + 1
          = (t.putword (f 0)).rw_addr + (2 * i + 1) by ring, hcong (2 * i + 1)] at h
        rw [hseq, show t.rw_addr + 2 * (i + 1) = t.rw_addr + 2 + 2 * i by ring]
        exact ⟨h.1, by
          rw [show t.rw_addr + 2 + 2 * i + 1 = t.rw_addr + 2 + (2 * i + 1) by ring]
          exact h.2⟩
    · rw [hseq]
      have h1 : (putwordSeq (fun i => f (i + 1)) n (t.putword (f 0))).vram x
          = (t.putword (f 0)).vram x := by
        refine hIH.2.1 x fun j hjn => ?_
        rw [hcong (2 * j), show (t.putword (f 0)).rw_addr + 2 * j + 1
          = (t.putword (f 0)).rw_addr + (2 * j + 1) by ring, hcong (2 * j + 1)]
        have := hx (j + 1) (by omega)
        constructor
        · rw [show t.rw_addr + 2 + 2 * j = t.rw_addr + 2 * (j + 1) by ring]
          exact this.1
        · rw [show t.rw_addr + 2 + (2 * j + 1) = t.rw_addr + 2 * (j + 1) + 1 by ring]
          exact this.2
      rw [h1, Vdp.putword_vram_even t (f 0) x hm he]
      have h0 := hx 0 (by omega)
      rw [show t.rw_addr + 2 * 0 = t.rw_addr by ring] at h0
      rw [if_neg (by rw [show t.rw_addr + 1 = t.rw_addr + 2 * 0 + 1 by ring]; exact h0.2),
        if_neg h0.1]
    · rw [hseq, hIH.2.2, ht1a]
      omega

/-- The mode-0/1 DMA loop is the `putword` sequence fed with the
big-endian byte pairs read from the external source. -/
theorem dmaLoop01_eq_seq (ext : Nat → Nat) (n src : Nat) (t : Vdp) :
    dmaLoop01 ext n src t
      = putwordSeq (fun i => (dma_mem_read ext (src + 2 * i) <<< 8)
          ||| dma_mem_read ext (src + 2 * i + 1)) n t := by
  induction n generalizing src t with
  | zero => rfl
  | succ n ih =>
    show dmaLoop01 ext n (src + 2)
        (t.putword ((dma_mem_read ext src <<< 8) ||| dma_mem_read ext (src + 1)))
      = putwordSeq _ (n + 1) t
    rw [ih (src + 2) _]
    show _ = putwordSeq
      (fun i => (dma_mem_read ext (src + 2 * (i + 1)) <<< 8)
        ||| dma_mem_read ext (src + 2 * (i + 1) + 1)) n
      (t.putword ((dma_mem_read ext (src + 2 * 0) <<< 8) ||| dma_mem_read ext (src + 2 * 0 + 1)))
    have hf : (fun i => (dma_mem_read ext (src + 2 + 2 * i) <<< 8)
        ||| dma_mem_read ext (src + 2 + 2 * i + 1))
      = fun i => (dma_mem_read ext (src + 2 * (i + 1)) <<< 8)
        ||| dma_mem_read ext (src + 2 * (i + 1) + 1) := by
      funext i
      rw [show src + 2 + 2 * i = src + 2 * (i + 1) by ring]
    rw [hf, show src + 2 * 0 = src by ring, show src + 2 * 0 + 1 = src + 1 by ring]

/-- A second command word with the DMA bit set and transfer mode 0 or 1
latches the addressing state and immediately runs the external-source DMA
loop over it. -/
theorem Vdp.command_second_mode01 (s : Vdp) (ext : Nat → Nat) (cmd : Nat)
    (hp : s.cmd_pending = true) (hb : ((cmd % 65536 &&& 0x80) == 0x80) = true)
    (hmode : (s.reg 0x17 >>> 6) &&& 3 = 0 ∨ (s.reg 0x17 >>> 6) &&& 3 = 1) :
    s.command ext cmd =
      dmaLoop01 ext s.dma_len s.dma_addr
        { s with
          rw_addr := 65537 * (((s.rw_addr &&& 0xffff3fff)
            ||| ((cmd % 65536 &&& 0x0003) <<< 14)) % 65536),
          rw_mode := s.rw_mode ||| (cmd % 65536 &&& 0x0070),
          rw_dma := (cmd % 65536 &&& 0x80) == 0x80,
          cmd_pending := false } := by
  unfold Vdp.command
  rw [if_pos hp]
  dsimp only
  rw [mirror_eq]
  rw [if_pos (show ((cmd % 65536 &&& 0x80) == 0x80) = true from hb)]
  rw [if_pos hmode]
  rfl

/-- C5 (amended): a completed DMA command in mode 0 or 1 copying N words
into the large bank at an even destination with auto-increment 2 (N at
most 32768 so destinations do not wrap onto each other) reads byte pairs
from the 23-bit source `((reg[0x17]&0x7f)<<17)+(reg[0x16]<<9)+(reg[0x15]<<1)`
advancing by 2 per iteration, combines them big-endian and writes them
through the word-write path, so every destination word equals its source
pair; the destination address advances by `N * auto_increment`
(mod 65536); `N = 0` performs no transfer. -/
theorem dma_external_copy (ext : Nat → Nat) (s : Vdp) (w2 d N : Nat)
    (hp : s.cmd_pending = true) (hw : w2 < 65536) (h70 : w2 &&& 0x0070 = 0)
    (h80 : w2 &&& 0x80 = 0x80)
    (hmode : (s.reg 0x17 >>> 6) &&& 3 = 0 ∨ (s.reg 0x17 >>> 6) &&& 3 = 1)
    (hm : s.rw_mode = 0x04) (hinc : s.reg 15 = 2) (he : s.rw_addr % 2 = 0)
    (hN : N = s.dma_len) (hNle : N ≤ 32768)
    (hd : d = ((s.rw_addr &&& 0xffff3fff) ||| ((w2 &&& 0x0003) <<< 14)) % 65536) :
    (∀ i, i < N →
      (s.command ext w2).vram ((d + 2 * i) % 65536) = ext (s.dma_addr + 2 * i) % 256 ∧
      (s.command ext w2).vram ((d + 2 * i + 1) % 65536)
        = ext (s.dma_addr + 2 * i + 1) % 256) ∧
    (s.command ext w2).rw_addr % 65536 = (d + N * s.reg 15) % 65536 ∧
    (N = 0 → (∀ x, (s.command ext w2).vram x = s.vram x) ∧
      (∀ x, (s.command ext w2).dirt x = s.dirt x)) := by
  have hb : ((w2 % 65536 &&& 0x80) == 0x80) = true := by
    rw [Nat.mod_eq_of_lt hw, h80]
    rfl
  have hcmd := Vdp.command_second_mode01 s ext w2 hp hb hmode
  rw [Nat.mod_eq_of_lt hw] at hcmd
  set R : Vdp := { s with
    rw_addr := 65537 * (((s.rw_addr &&& 0xffff3fff) ||| ((w2 &&& 0x0003) <<< 14)) % 65536),
    rw_mode := s.rw_mode ||| (w2 &&& 0x0070),
    rw_dma := (w2 &&& 0x80) == 0x80,
    cmd_pending := false } with hRdef
  have hdlt : d < 65536 := by rw [hd]; omega
  have hd2 : d % 2 = 0 := by
    rw [hd, latch2_arith]
    omega
  have hRA : R.rw_addr = 65537 * d := by rw [hRdef, hd]
  have hRm : R.rw_mode = 0x04 := by
    rw [hRdef]
    dsimp only
    rw [hm, h70]
    rfl
  have hRr : R.reg 15 = 2 := by rw [hRdef]; exact hinc
  have hRe : R.rw_addr % 2 = 0 := by
    rw [hRA, show 65537 * d = 65536 * d + d by ring]
    omega
  have hRlt : R.rw_addr < 0x100000000 := by
    rw [hRA]
    omega
  have hR65 : R.rw_addr % 65536 = d := by
    rw [hRA, show 65537 * d = 65536 * d + d by ring]
    omega
  rw [hcmd, dmaLoop01_eq_seq, ← hN]
  have spec := putwordSeq_spec
    (fun i => (dma_mem_read ext (s.dma_addr + 2 * i) <<< 8)
      ||| dma_mem_read ext (s.dma_addr + 2 * i + 1)) N R hRm hRr hRe hRlt hNle
  refine ⟨fun i hi => ?_, ?_, fun h0 => ?_⟩
  · have hs1 := spec.1 i hi
    have e1 : (R.rw_addr + 2 * i) % 65536 = (d + 2 * i) % 65536 := by
      rw [hRA, show 65537 * d + 2 * i = 65536 * d + (d + 2 * i) by ring]
      omega
    have e2 : (R.rw_addr + 2 * i + 1) % 65536 = (d + 2 * i + 1) % 65536 := by
      rw [hRA, show 65537 * d + 2 * i + 1 = 65536 * d + (d + 2 * i + 1) by ring]
      omega
    rw [e1, e2] at hs1
    have hF : ((dma_mem_read ext (s.dma_addr + 2 * i) <<< 8)
          ||| dma_mem_read ext (s.dma_addr + 2 * i + 1)) % 65536 / 256
          = ext (s.dma_addr + 2 * i) % 256 ∧
        ((dma_mem_read ext (s.dma_addr + 2 * i) <<< 8)
          ||| dma_mem_read ext (s.dma_addr + 2 * i + 1)) % 65536 % 256
          = ext (s.dma_addr + 2 * i + 1) % 256 := by
      unfold dma_mem_read
      rw [word_or_eq _ _ (by omega)]
      constructor <;> omega
    exact ⟨by rw [hs1.1, hF.1], by rw [hs1.2, hF.2]⟩
  · rw [spec.2.2, hRA, hinc, show 65537 * d + 2 * N = 65536 * d + (d + 2 * N) by ring]
    omega
  · have hlen : s.dma_len = 0 := by omega
    rw [← hN] at hcmd
    rw [h0]
    exact ⟨fun x => rfl, fun x => rfl⟩

/-- Identity-mod-256 external byte source for concrete instances. -/
def extMod : Nat → Nat := fun a => a % 256

/-- State expecting a second word, VRAM write mode latched, length 2,
auto-increment 0, transfer mode 0. -/
def cexC5 : Vdp :=
  { zState with cmd_pending := true, rw_mode := 0x04, reg := updateFn zState.reg 0x13 2 }

/-- C5 counterexample: with auto-increment 0 a mode-0 DMA of two words
writes both source pairs to the same destination, so after the transfer
the destination word 0 holds the second pair (bytes 2,3), not its
corresponding source pair (bytes 0,1) — the claim's per-word equality
fails for this completed command. -/
theorem dma_copy_overwrite :
    cexC5.cmd_pending = true ∧ (cexC5.reg 0x17 >>> 6) &&& 3 = 0 ∧ cexC5.dma_len = 2 ∧
    Vdp.dma_addr cexC5 = 0 ∧
    (cexC5.command extMod 0x0080).vram ((0 + 2 * 0) % 65536) = 2 ∧
    ¬ (cexC5.command extMod 0x0080).vram ((0 + 2 * 0) % 65536)
        = extMod (Vdp.dma_addr cexC5 + 2 * 0) % 256 := by
  decide

/-- State for the C5 witness: second word expected, VRAM write mode,
length 1, auto-increment 2, source byte address 16. -/
def wC5 : Vdp :=
  { zState with cmd_pending := true, rw_mode := 0x04, reg := updateFn (updateFn (updateFn zState.reg 0x13 1) 15 2) 0x15 8 }

theorem dma_external_copy_witness :
    (wC5.cmd_pending = true ∧ (0x0080 : Nat) < 65536 ∧ (0x0080 : Nat) &&& 0x0070 = 0 ∧
      (0x0080 : Nat) &&& 0x80 = 0x80 ∧ (wC5.reg 0x17 >>> 6) &&& 3 = 0 ∧
      wC5.rw_mode = 0x04 ∧ wC5.reg 15 = 2 ∧ wC5.rw_addr % 2 = 0 ∧
      (1 : Nat) = wC5.dma_len ∧ (1 : Nat) ≤ 32768 ∧
      (0 : Nat) = ((wC5.rw_addr &&& 0xffff3fff) ||| (((0x0080 : Nat) &&& 0x0003) <<< 14)) % 65536) ∧
    (wC5.command extMod 0x0080).vram ((0 + 2 * 0) % 65536)
      = extMod (wC5.dma_addr + 2 * 0) % 256 :=
  ⟨⟨by decide, by decide, by decide, by decide, by decide, by decide, by decide, by decide,
      by decide, by decide, by decide⟩,
    ((dma_external_copy extMod wC5 0x0080 0 1 (by decide) (by decide) (by decide) (by decide)
      (Or.inl (by decide)) (by decide) (by decide) (by decide) (by decide) (by decide)
      (by decide)).1 0 (by decide)).1⟩
